import Mathlib

/-!
# Color balance: the remap `getColor` and the fragment-shader kernel `color_balance`

A shallow embedding of `src/index.js`.

Numbers.  Every number is a rational.  The arithmetic of the kernel past the intensity, of
the vertex stage and of `getColor` is read as exact; the rounding that decides a claim is
modelled explicitly: `fl32` and `fl64` round a rational to the nearest binary32 and
binary64 number (ties to even, gradual underflow, no overflow), the intensity of the
kernel is computed with `fl32` after every operation and on its literal, and `getColor64`
is `getColor` with `fl64` after every operation.

Vectors.  GLSL `vec3` and `vec4` are records of rationals, with the component-wise
operations the shader uses (`+`, vector times scalar, `mix`).
-/

namespace ColorBalance

/-! ## Rounding to a binary floating-point format -/

/-- The integer nearest to `y`, a tie going to the even one. -/
def roundHalfEven (y : ℚ) : ℤ :=
  if y - ⌊y⌋ < 1 / 2 then ⌊y⌋
  else if 1 / 2 < y - ⌊y⌋ then ⌊y⌋ + 1
  else if ⌊y⌋ % 2 = 0 then ⌊y⌋ else ⌊y⌋ + 1

/-- The spacing of the numbers of a format with `p` significant bits and least exponent
`emin` around `x ≥ 0`: two to the exponent of `x` (at least `emin`) less `p - 1`. -/
def quantum (p : ℕ) (emin : ℤ) (x : ℚ) : ℚ :=
  (2 : ℚ) ^ (max (Int.log 2 x) emin - ((p : ℤ) - 1))

/-- The number of the format nearest to `x ≥ 0`, ties to even. -/
def roundMag (p : ℕ) (emin : ℤ) (x : ℚ) : ℚ :=
  roundHalfEven (x / quantum p emin x) * quantum p emin x

/-- Round to nearest, ties to even, in a format with `p` significant bits and least
exponent `emin`; the largest finite number is not modelled. -/
def roundTo (p : ℕ) (emin : ℤ) (x : ℚ) : ℚ :=
  if 0 ≤ x then roundMag p emin x else -roundMag p emin (-x)

/-- Rounding to binary32, the shader's `highp float`. -/
def fl32 (x : ℚ) : ℚ := roundTo 24 (-126) x

/-- Rounding to binary64, the JavaScript number. -/
def fl64 (x : ℚ) : ℚ := roundTo 53 (-1022) x

/-! ## GLSL vectors -/

/-- A GLSL `vec3`: the rgb components of a colour, or one offset uniform. -/
structure Vec3 where
  r : ℚ
  g : ℚ
  b : ℚ
deriving DecidableEq

/-- A GLSL `vec4`: a texel with its alpha component. -/
structure Vec4 where
  r : ℚ
  g : ℚ
  b : ℚ
  a : ℚ
deriving DecidableEq

/-- Component-wise sum of two `vec3` (GLSL `+`). -/
def Vec3.add (x y : Vec3) : Vec3 :=
  ⟨x.r + y.r, x.g + y.g, x.b + y.b⟩

/-- A `vec3` times a scalar (GLSL `vec3 * float`). -/
def Vec3.scale (x : Vec3) (k : ℚ) : Vec3 :=
  ⟨x.r * k, x.g * k, x.b * k⟩

/-- GLSL `mix(x, y, a)`, defined by the language as `x * (1 - a) + y * a`, per component. -/
def mix (x y : Vec3) (a : ℚ) : Vec3 :=
  Vec3.add (Vec3.scale x (1 - a)) (Vec3.scale y a)

/-- The swizzle `.rgb` of a `vec4`. -/
def Vec4.rgb (v : Vec4) : Vec3 :=
  ⟨v.r, v.g, v.b⟩

/-- The assignment `v.rgb = c`: the three colour components are replaced, alpha is kept. -/
def Vec4.setRgb (v : Vec4) (c : Vec3) : Vec4 :=
  ⟨c.r, c.g, c.b, v.a⟩

/-! ## The remap `getColor` (index.js, lines 66-74) -/

/-- The function `getColor`, its arithmetic read as exact: `value` is the number
`parseFloat` read from the control. -/
def getColor (value : ℚ) : ℚ :=
  if value ≤ 0 then (255 + value) / 255 - 1 else 1 + (value - 255) / 255

/-- The first branch of `getColor` in binary64: `(255.0 + f) / 255.0 - 1.0`. -/
def getColorThen64 (f : ℚ) : ℚ :=
  fl64 (fl64 (fl64 (255 + f) / 255) - 1)

/-- The second branch of `getColor` in binary64: `1.0 + ((f - 255.0) / 255.0)`. -/
def getColorElse64 (f : ℚ) : ℚ :=
  fl64 (1 + fl64 (fl64 (f - 255) / 255))

/-- The function `getColor` in binary64: `parseFloat` gives the number nearest to the
value, and every operation rounds. -/
def getColor64 (value : ℚ) : ℚ :=
  if fl64 value ≤ 0 then getColorThen64 (fl64 value) else getColorElse64 (fl64 value)

/-- One entry of the table `colors`: the raw control values of one tonal range. -/
structure RGB where
  r : ℚ
  g : ℚ
  b : ℚ
deriving DecidableEq

/-- The table `colors` (index.js, lines 3-7): one raw triple per tonal range. -/
structure Colors where
  shadows : RGB
  midtones : RGB
  highlights : RGB
deriving DecidableEq

/-- The uniform `render` uploads for one range: `[c.r, c.g, c.b].map(c => getColor(c))`
(index.js, lines 279-284). -/
def uniformOf (c : RGB) : Vec3 :=
  ⟨getColor c.r, getColor c.g, getColor c.b⟩

/-- The three uniforms of the fragment shader: `u_shadows`, `u_midtones`, `u_highlights`. -/
structure Uniforms where
  u_shadows : Vec3
  u_midtones : Vec3
  u_highlights : Vec3
deriving DecidableEq

/-- The uniforms `render` binds from the table `colors`. -/
def renderUniforms (colors : Colors) : Uniforms :=
  ⟨uniformOf colors.shadows, uniformOf colors.midtones, uniformOf colors.highlights⟩

/-! ## The kernel `color_balance` (fragment shader, index.js, lines 187-204) -/

/-- The constant `amount` of `color_balance`. -/
def amount : ℚ := 1

/-- The local `intensity`: `(r + g + b) * 0.333333333` in binary32, the two sums and the
product rounded one after the other and the literal rounded to the format. -/
def intensity (textureColor : Vec3) : ℚ :=
  fl32 (fl32 (fl32 (textureColor.r + textureColor.g) + textureColor.b)
    * fl32 (333333333 / 1000000000))

/-- The local `shadows_bleed` as a function of the intensity: `1.0 - intensity`, cubed. -/
def shadows_bleed (i : ℚ) : ℚ :=
  let s := 1 - i
  s * s * s

/-- The local `midtones_bleed` as a function of the intensity:
`1.0 - abs(-1.0 + intensity * 2.0)`, cubed. -/
def midtones_bleed (i : ℚ) : ℚ :=
  let m := 1 - abs (-1 + i * 2)
  m * m * m

/-- The local `highlights_bleed` as a function of the intensity: `intensity`, cubed. -/
def highlights_bleed (i : ℚ) : ℚ :=
  let h := i
  h * h * h

/-- The local `colorization` of `color_balance`. -/
def colorization (u : Uniforms) (textureColor : Vec3) : Vec3 :=
  Vec3.add
    (Vec3.add
      (Vec3.add textureColor
        (Vec3.scale u.u_shadows (shadows_bleed (intensity textureColor))))
      (Vec3.scale u.u_midtones (midtones_bleed (intensity textureColor))))
    (Vec3.scale u.u_highlights (highlights_bleed (intensity textureColor)))

/-- The function `color_balance`, with the shader's uniforms as an explicit argument. -/
def color_balance (u : Uniforms) (textureColor : Vec3) : Vec3 :=
  mix textureColor (colorization u textureColor) amount

/-- The fragment shader's `main`: `texel` is the value `texture(u_image, v_texCoord)`
sampled for the fragment; the result is `outColor`. -/
def fragMain (u : Uniforms) (texel : Vec4) : Vec4 :=
  Vec4.setRgb texel (color_balance u (Vec4.rgb texel))

/-- The zero offset `(0, 0, 0)`. -/
def zeroOffset : Vec3 := ⟨0, 0, 0⟩

/-- The uniforms with all three offsets `(0, 0, 0)`. -/
def zeroUniforms : Uniforms := ⟨zeroOffset, zeroOffset, zeroOffset⟩

/-- The value `v` clamped to `[0, 255]`, as the specification words it. -/
def clamp255 (v : ℚ) : ℚ :=
  if v < 0 then 0 else if 255 < v then 255 else v

/-- The value `x` rounded to three decimal places (half up), as the specification's
"approximately" is read. -/
def round3 (x : ℚ) : ℚ :=
  (⌊x * 1000 + 1 / 2⌋ : ℤ) / 1000

/-- A pure white pixel `(1, 1, 1)`. -/
def white : Vec3 := ⟨1, 1, 1⟩

/-- A pure black pixel `(0, 0, 0)`. -/
def black : Vec3 := ⟨0, 0, 0⟩

/-! ## The session state: `colors`, `mode`, the canvas and the handlers -/

/-- The object `colors` as JavaScript holds it: its properties, in insertion order, each
with the entry it points to. -/
abbrev Table := List (String × RGB)

/-- The property read `colors[key]`; `none` stands for `undefined`. -/
def Table.get (t : Table) (key : String) : Option RGB :=
  List.lookup key t

/-- The entry under `key` replaced by `e`: what an assignment to a component of
`colors[key]` leaves in the table.  No property is added or removed. -/
def Table.set (t : Table) (key : String) (e : RGB) : Table :=
  t.map (fun p => if p.1 = key then (p.1, e) else p)

/-- The property names of the table. -/
def Table.keys (t : Table) : List String :=
  t.map Prod.fst

/-- The three property names of `colors` (index.js, lines 3-7). -/
def rangeKeys : List String := ["shadows", "midtones", "highlights"]

/-- The reads `colors.shadows`, `colors.midtones`, `colors.highlights` of `render`
(index.js, lines 279-281); `none` when one of them is `undefined`, where reading its
component throws. -/
def readColors (t : Table) : Option Colors :=
  match t.get "shadows", t.get "midtones", t.get "highlights" with
  | some s, some m, some h => some ⟨s, m, h⟩
  | _, _, _ => none

/-- A decoded source image: its dimensions and its texels, each component in `[0, 1]` as
`texture` returns them. -/
structure Image where
  width : ℕ
  height : ℕ
  pixels : List Vec4
deriving DecidableEq

/-- What `render` leaves behind on the canvas and its WebGL context: the canvas size, the
viewport `(x, y, width, height)`, the uniform `u_resolution`, the contents of the position
buffer, the three offset uniforms, and the pixels of the drawing buffer. -/
structure Canvas where
  width : ℕ
  height : ℕ
  viewport : ℕ × ℕ × ℕ × ℕ
  u_resolution : ℚ × ℚ
  positions : List ℚ
  uniforms : Uniforms
  frame : List Vec4
deriving DecidableEq

/-- The function `setRectangle` (index.js, lines 85-98): the twelve numbers written into
the bound buffer. -/
def setRectangle (x y width height : ℚ) : List ℚ :=
  let x1 := x
  let x2 := x + width
  let y1 := y
  let y2 := y + height
  [x1, y1, x2, y1, x1, y2, x1, y2, x2, y1, x2, y2]

/-- The function `render` (index.js, lines 152-291) with the global `colors` as an
argument.  The canvas is resized first; viewport and `u_resolution` are read back from the
resized canvas; the draw runs the fragment shader on the texel of every pixel of the
target (nearest sampling of a texture drawn at its own size), after the clear.
`none` stands for the exception of reading a component of a missing entry of `colors`. -/
def render (colors : Table) (canvas : Canvas) (image : Image) : Option Canvas :=
  let sized : Canvas :=
    ⟨image.width, image.height, canvas.viewport, canvas.u_resolution, canvas.positions,
      canvas.uniforms, []⟩
  let viewed : Canvas :=
    ⟨sized.width, sized.height, (0, 0, sized.width, sized.height), sized.u_resolution,
      sized.positions, sized.uniforms,
      List.replicate (sized.width * sized.height) ⟨0, 0, 0, 0⟩⟩
  match readColors colors with
  | none => none
  | some c =>
    some ⟨viewed.width, viewed.height, viewed.viewport,
      ((viewed.width : ℚ), (viewed.height : ℚ)),
      setRectangle 0 0 image.width image.height,
      renderUniforms c,
      image.pixels.map (fragMain (renderUniforms c))⟩

/-- The session: the globals `colors` and `mode`, the canvas, and the current `image`. -/
structure App where
  colors : Table
  mode : String
  canvas : Canvas
  image : Image
deriving DecidableEq

/-- The session at start-up: `colors` all zero, `mode` the string `midtones`
(index.js, lines 3-9). -/
def App.start (canvas : Canvas) (image : Image) : App :=
  ⟨[("shadows", ⟨0, 0, 0⟩), ("midtones", ⟨0, 0, 0⟩), ("highlights", ⟨0, 0, 0⟩)],
    "midtones", canvas, image⟩

/-- The user actions handled in `window.onload` (index.js, lines 306-335 and 367-373): a
change of one of the three radio buttons, an input on one of the three sliders, with the
slider's value at that moment, or a click on the download button. -/
inductive Event where
  | shadowsChange : Event
  | midtonesChange : Event
  | highlightsChange : Event
  | rInput (value : ℚ) : Event
  | gInput (value : ℚ) : Event
  | bInput (value : ℚ) : Event
  | downloadClick : Event
deriving DecidableEq

/-- The body shared by the three slider handlers: the entry `colors[mode]` gets one
component overwritten, then `render(canvas, image)` runs.  `none` stands for a thrown
exception (`colors[mode]` undefined). -/
def inputHandler (s : App) (write : RGB → RGB) : Option App :=
  match s.colors.get s.mode with
  | none => none
  | some e =>
    match render (s.colors.set s.mode (write e)) s.canvas s.image with
    | none => none
    | some cv => some ⟨s.colors.set s.mode (write e), s.mode, cv, s.image⟩

/-- One handler run.  The radio handlers assign `mode` and call `setRanges`, which writes
only to the sliders and labels of the page; the download handler renders before it
encodes the canvas. -/
def step (s : App) : Event → Option App
  | Event.shadowsChange => some ⟨s.colors, "shadows", s.canvas, s.image⟩
  | Event.midtonesChange => some ⟨s.colors, "midtones", s.canvas, s.image⟩
  | Event.highlightsChange => some ⟨s.colors, "highlights", s.canvas, s.image⟩
  | Event.rInput v => inputHandler s (fun e => ⟨v, e.g, e.b⟩)
  | Event.gInput v => inputHandler s (fun e => ⟨e.r, v, e.b⟩)
  | Event.bInput v => inputHandler s (fun e => ⟨e.r, e.g, v⟩)
  | Event.downloadClick =>
    match render s.colors s.canvas s.image with
    | none => none
    | some cv => some ⟨s.colors, s.mode, cv, s.image⟩

/-- A sequence of handler runs, stopping at the first exception. -/
def run (s : App) : List Event → Option App
  | [] => some s
  | e :: es =>
    match step s e with
    | none => none
    | some s1 => run s1 es

/-- The shape the table is to keep: exactly the three entries, and `mode` one of them. -/
def App.WellFormed (s : App) : Prop :=
  s.colors.keys = rangeKeys ∧ s.mode ∈ rangeKeys

/-! ## The vertex stage (vertex shader, index.js, lines 159-172) -/

/-- A GLSL `vec2`. -/
structure Vec2 where
  x : ℚ
  y : ℚ
deriving DecidableEq

/-- The `vec4` written to `gl_Position`, with its components named `x`, `y`, `z`, `w`. -/
structure Position4 where
  x : ℚ
  y : ℚ
  z : ℚ
  w : ℚ
deriving DecidableEq

/-- The outputs of the vertex shader. -/
structure VertexOut where
  gl_Position : Position4
  v_texCoord : Vec2
deriving DecidableEq

/-- The vertex shader's `main`, with the uniform `u_resolution` and the two attributes as
arguments. -/
def vertMain (u_resolution a_texCoord a_position : Vec2) : VertexOut :=
  let zeroToOne : Vec2 := ⟨a_position.x / u_resolution.x, a_position.y / u_resolution.y⟩
  let zeroToTwo : Vec2 := ⟨zeroToOne.x * 2, zeroToOne.y * 2⟩
  let clipSpace : Vec2 := ⟨zeroToTwo.x - 1, zeroToTwo.y - 1⟩
  ⟨⟨clipSpace.x * 1, clipSpace.y * (-1), 0, 1⟩, a_texCoord⟩

/-- The attribute values read from a buffer with `vertexAttribPointer(_, 2, FLOAT, ...)`:
two consecutive numbers per vertex. -/
def attributes : List ℚ → List Vec2
  | x :: y :: rest => ⟨x, y⟩ :: attributes rest
  | _ => []

/-- The buffer `rect` of texture coordinates (index.js, lines 244-251). -/
def rect : List ℚ := [0, 0, 1, 0, 0, 1, 0, 1, 1, 0, 1, 1]

/-- The primitives of `drawArrays(TRIANGLES, ...)`: three consecutive vertices each. -/
def triangles : List Vec2 → List (Vec2 × Vec2 × Vec2)
  | a :: b :: c :: rest => (a, b, c) :: triangles rest
  | _ => []

/-- The clip-space `x`, `y` of the vertices that the vertex stage produces from the
position buffer `positions` under the resolution `u_resolution`. -/
def clipVertices (u_resolution : Vec2) (positions : List ℚ) : List Vec2 :=
  (List.zipWith (vertMain u_resolution) (attributes rect) (attributes positions)).map
    (fun o => ⟨o.gl_Position.x, o.gl_Position.y⟩)

/-- The edge function of the directed edge `a b` at the point `p`: twice the signed area
of the triangle `a b p`. -/
def edge (a b p : Vec2) : ℚ :=
  (b.x - a.x) * (p.y - a.y) - (b.y - a.y) * (p.x - a.x)

/-- The point `p` lies in the closed triangle `t`: it is on the same side of all three
edges. -/
def inTriangle (t : Vec2 × Vec2 × Vec2) (p : Vec2) : Prop :=
  (0 ≤ edge t.1 t.2.1 p ∧ 0 ≤ edge t.2.1 t.2.2 p ∧ 0 ≤ edge t.2.2 t.1 p)
    ∨ (edge t.1 t.2.1 p ≤ 0 ∧ edge t.2.1 t.2.2 p ≤ 0 ∧ edge t.2.2 t.1 p ≤ 0)

instance (t : Vec2 × Vec2 × Vec2) (p : Vec2) : Decidable (inTriangle t p) := by
  unfold inTriangle
  infer_instance

/-! ## Shared lemmas -/

theorem roundHalfEven_sub_le (y : ℚ) : |(roundHalfEven y : ℚ) - y| ≤ 1 / 2 := by
  have h1 := Int.floor_le y
  have h2 := Int.lt_floor_add_one y
  unfold roundHalfEven
  split_ifs with a b c
  · rw [abs_le]; constructor <;> linarith
  · push_cast; rw [abs_le]; constructor <;> linarith
  · rw [abs_le]; constructor <;> linarith
  · push_cast; rw [abs_le]; constructor <;> linarith

theorem roundHalfEven_eq (y : ℚ) (k : ℤ) (h : |y - k| < 1 / 2) : roundHalfEven y = k := by
  rw [abs_lt] at h
  obtain ⟨h1, h2⟩ := h
  unfold roundHalfEven
  by_cases hk : (k : ℚ) ≤ y
  · have hf : ⌊y⌋ = k := by
      rw [Int.floor_eq_iff]
      constructor <;> linarith
    rw [hf, if_pos (by linarith)]
  · have hf : ⌊y⌋ = k - 1 := by
      rw [Int.floor_eq_iff]
      push_cast
      constructor <;> linarith
    rw [hf]
    push_cast
    rw [if_neg (by linarith), if_pos (by linarith)]
    ring

theorem roundHalfEven_le (y : ℚ) (n : ℤ) (h : y ≤ n) : roundHalfEven y ≤ n := by
  have hf : ⌊y⌋ ≤ n := Int.floor_le_iff.mpr (by linarith)
  rcases lt_or_eq_of_le hf with hlt | heq
  · have : roundHalfEven y ≤ ⌊y⌋ + 1 := by
      unfold roundHalfEven
      split_ifs <;> omega
    omega
  · have h1 := Int.floor_le y
    have hy : y - ⌊y⌋ < 1 / 2 := by
      rw [heq]; linarith
    unfold roundHalfEven
    rw [if_pos hy]
    exact hf

theorem le_roundHalfEven (y : ℚ) (n : ℤ) (h : (n : ℚ) ≤ y) : n ≤ roundHalfEven y := by
  have hf : n ≤ ⌊y⌋ := Int.le_floor.mpr h
  have : ⌊y⌋ ≤ roundHalfEven y := by
    unfold roundHalfEven
    split_ifs <;> omega
  omega


theorem log_two_eq (x : ℚ) (e : ℤ) (h1 : (2 : ℚ) ^ e ≤ x) (h2 : x < (2 : ℚ) ^ (e + 1)) :
    Int.log 2 x = e := by
  have hx : 0 < x := lt_of_lt_of_le (zpow_pos (by norm_num) e) h1
  have a : Int.log 2 x < e + 1 := by
    rw [← Int.lt_zpow_iff_log_lt (by norm_num) hx]
    simpa using h2
  have b : e ≤ Int.log 2 x := by
    rw [← Int.zpow_le_iff_le_log (by norm_num) hx]
    simpa using h1
  omega

theorem log_two_le (x : ℚ) (e : ℤ) (hx : 0 ≤ x) (h2 : x < (2 : ℚ) ^ (e + 1)) (he : 0 ≤ e ∨ 0 < x) :
    Int.log 2 x ≤ e := by
  rcases eq_or_lt_of_le hx with h0 | hpos
  · rw [← h0, Int.log_zero_right]
    rcases he with he | he
    · exact he
    · exact absurd he (by rw [← h0]; exact lt_irrefl _)
  · have a : Int.log 2 x < e + 1 := by
      rw [← Int.lt_zpow_iff_log_lt (by norm_num) hpos]
      simpa using h2
    omega

theorem quantum_pos (p : ℕ) (emin : ℤ) (x : ℚ) : 0 < quantum p emin x :=
  zpow_pos (by norm_num) _

theorem roundMag_zero (p : ℕ) (emin : ℤ) : roundMag p emin 0 = 0 := by
  unfold roundMag
  rw [zero_div, roundHalfEven_eq 0 0 (by norm_num)]
  simp

theorem roundMag_nonneg (p : ℕ) (emin : ℤ) (x : ℚ) (hx : 0 ≤ x) : 0 ≤ roundMag p emin x := by
  unfold roundMag
  have hq := quantum_pos p emin x
  have h : (0 : ℤ) ≤ roundHalfEven (x / quantum p emin x) :=
    le_roundHalfEven _ 0 (by simpa using div_nonneg hx hq.le)
  exact mul_nonneg (by exact_mod_cast h) hq.le

theorem roundMag_eq (p : ℕ) (emin : ℤ) (x : ℚ) (e k : ℤ) (he : emin ≤ e)
    (h1 : (2 : ℚ) ^ e ≤ x) (h2 : x < (2 : ℚ) ^ (e + 1))
    (hk : |x / (2 : ℚ) ^ (e - ((p : ℤ) - 1)) - k| < 1 / 2) :
    roundMag p emin x = k * (2 : ℚ) ^ (e - ((p : ℤ) - 1)) := by
  unfold roundMag quantum
  rw [log_two_eq x e h1 h2, max_eq_left he, roundHalfEven_eq _ k hk]

theorem roundMag_sub_le (p : ℕ) (emin : ℤ) (x : ℚ) (e : ℤ) (he : emin ≤ e)
    (hx : 0 ≤ x) (h2 : x < (2 : ℚ) ^ (e + 1)) (h0 : 0 ≤ e ∨ 0 < x) :
    |roundMag p emin x - x| ≤ (2 : ℚ) ^ (e - (p : ℤ)) := by
  have hq := quantum_pos p emin x
  have hle : quantum p emin x ≤ (2 : ℚ) ^ (e - ((p : ℤ) - 1)) := by
    unfold quantum
    apply zpow_le_zpow_right₀ (by norm_num)
    have := log_two_le x e hx h2 h0
    have : max (Int.log 2 x) emin ≤ e := max_le this he
    omega
  have hr := roundHalfEven_sub_le (x / quantum p emin x)
  have e1 : roundMag p emin x - x
      = ((roundHalfEven (x / quantum p emin x) : ℚ) - x / quantum p emin x)
          * quantum p emin x := by
    unfold roundMag
    field_simp
  rw [e1, abs_mul, abs_of_pos hq]
  have e2 : (2 : ℚ) ^ (e - (p : ℤ)) = 1 / 2 * (2 : ℚ) ^ (e - ((p : ℤ) - 1)) := by
    rw [show e - ((p : ℤ) - 1) = (e - (p : ℤ)) + 1 by ring, zpow_add_one₀ (by norm_num)]
    ring
  rw [e2]
  exact mul_le_mul hr hle hq.le (by norm_num)

theorem roundMag_le (p : ℕ) (emin : ℤ) (x t : ℚ) (e m : ℤ) (he : emin ≤ e)
    (ht : t = m * (2 : ℚ) ^ (e - ((p : ℤ) - 1))) (ht2 : t < (2 : ℚ) ^ (e + 1))
    (hx : 0 ≤ x) (hxt : x ≤ t) : roundMag p emin x ≤ t := by
  rcases eq_or_lt_of_le hx with h0 | hpos
  · rw [← h0, roundMag_zero]
    exact le_trans hx hxt
  · have hq := quantum_pos p emin x
    have hlog : Int.log 2 x ≤ e :=
      log_two_le x e hx (lt_of_le_of_lt hxt ht2) (Or.inr hpos)
    have hmax : max (Int.log 2 x) emin ≤ e := max_le hlog he
    obtain ⟨d, hd⟩ : ∃ d : ℕ, e = max (Int.log 2 x) emin + d :=
      ⟨(e - max (Int.log 2 x) emin).toNat, by omega⟩
    have hsplit : (2 : ℚ) ^ (e - ((p : ℤ) - 1)) = (2 : ℚ) ^ d * quantum p emin x := by
      unfold quantum
      rw [hd, show max (Int.log 2 x) emin + (d : ℤ) - ((p : ℤ) - 1)
        = (d : ℤ) + (max (Int.log 2 x) emin - ((p : ℤ) - 1)) by ring,
        zpow_add₀ (by norm_num), zpow_natCast]
    have htq : t = ((m * 2 ^ d : ℤ) : ℚ) * quantum p emin x := by
      rw [ht, hsplit]
      push_cast
      ring
    have hy : x / quantum p emin x ≤ ((m * 2 ^ d : ℤ) : ℚ) := by
      rw [div_le_iff₀ hq, ← htq]
      exact hxt
    have hr := roundHalfEven_le _ _ hy
    unfold roundMag
    rw [htq]
    exact mul_le_mul_of_nonneg_right (by exact_mod_cast hr) hq.le

theorem getColor_eq_div (v : ℚ) : getColor v = v / 255 := by
  unfold getColor
  split <;> ring

theorem color_balance_r (u : Uniforms) (c : Vec3) :
    (color_balance u c).r
      = c.r + u.u_shadows.r * shadows_bleed (intensity c)
          + u.u_midtones.r * midtones_bleed (intensity c)
          + u.u_highlights.r * highlights_bleed (intensity c) := by
  simp only [color_balance, colorization, mix, amount, Vec3.add, Vec3.scale]
  ring

theorem color_balance_g (u : Uniforms) (c : Vec3) :
    (color_balance u c).g
      = c.g + u.u_shadows.g * shadows_bleed (intensity c)
          + u.u_midtones.g * midtones_bleed (intensity c)
          + u.u_highlights.g * highlights_bleed (intensity c) := by
  simp only [color_balance, colorization, mix, amount, Vec3.add, Vec3.scale]
  ring

theorem color_balance_b (u : Uniforms) (c : Vec3) :
    (color_balance u c).b
      = c.b + u.u_shadows.b * shadows_bleed (intensity c)
          + u.u_midtones.b * midtones_bleed (intensity c)
          + u.u_highlights.b * highlights_bleed (intensity c) := by
  simp only [color_balance, colorization, mix, amount, Vec3.add, Vec3.scale]
  ring

theorem Vec3.ext_rgb (x y : Vec3) (hr : x.r = y.r) (hg : x.g = y.g) (hb : x.b = y.b) :
    x = y := by
  cases x
  cases y
  simp_all

theorem Table.shape (t : Table) (h : t.keys = rangeKeys) :
    ∃ x y z, t = [("shadows", x), ("midtones", y), ("highlights", z)] := by
  unfold Table.keys rangeKeys at h
  rcases t with _ | ⟨⟨k1, x⟩, _ | ⟨⟨k2, y⟩, _ | ⟨⟨k3, z⟩, _ | ⟨p, rest⟩⟩⟩⟩ <;>
    simp at h
  obtain ⟨rfl, rfl, rfl⟩ := h
  exact ⟨x, y, z, rfl⟩

theorem readColors_of_keys (t : Table) (h : t.keys = rangeKeys) :
    ∃ c, readColors t = some c := by
  obtain ⟨x, y, z, rfl⟩ := Table.shape t h
  exact ⟨⟨x, y, z⟩, by simp [readColors, Table.get, List.lookup]⟩

theorem Table.keys_set (t : Table) (key : String) (e : RGB) :
    (t.set key e).keys = t.keys := by
  unfold Table.set Table.keys
  rw [List.map_map]
  apply List.map_congr_left
  intro p _
  by_cases hp : p.1 = key <;> simp [hp]

theorem Table.get_of_keys (t : Table) (key : String)
    (h : t.keys = rangeKeys) (hk : key ∈ rangeKeys) : ∃ e, t.get key = some e := by
  obtain ⟨x, y, z, rfl⟩ := Table.shape t h
  simp only [rangeKeys, List.mem_cons, List.mem_singleton, List.not_mem_nil, or_false] at hk
  rcases hk with rfl | rfl | rfl
  · exact ⟨x, by simp [Table.get, List.lookup]⟩
  · exact ⟨y, by simp [Table.get, List.lookup]⟩
  · exact ⟨z, by simp [Table.get, List.lookup]⟩

theorem render_of_readColors (t : Table) (canvas : Canvas) (image : Image) (c : Colors)
    (h : readColors t = some c) :
    render t canvas image
      = some ⟨image.width, image.height, (0, 0, image.width, image.height),
          ((image.width : ℚ), (image.height : ℚ)),
          setRectangle 0 0 image.width image.height,
          renderUniforms c,
          image.pixels.map (fragMain (renderUniforms c))⟩ := by
  simp only [render, h]

theorem step_wellFormed (s : App) (e : Event) (h : s.WellFormed) :
    ∃ s1, step s e = some s1 ∧ s1.WellFormed := by
  obtain ⟨hk, hm⟩ := h
  have input : ∀ write : RGB → RGB,
      ∃ s1, inputHandler s write = some s1 ∧ s1.WellFormed := by
    intro write
    obtain ⟨en, hen⟩ := Table.get_of_keys s.colors s.mode hk hm
    have hk1 : (s.colors.set s.mode (write en)).keys = rangeKeys := by
      rw [Table.keys_set, hk]
    obtain ⟨c, hc⟩ := readColors_of_keys _ hk1
    obtain ⟨cv, hcv⟩ :
        ∃ cv, render (s.colors.set s.mode (write en)) s.canvas s.image = some cv :=
      ⟨_, render_of_readColors _ _ _ c hc⟩
    exact ⟨⟨s.colors.set s.mode (write en), s.mode, cv, s.image⟩,
      by simp only [inputHandler, hen, hcv], hk1, hm⟩
  cases e with
  | shadowsChange => exact ⟨_, rfl, hk, by simp [rangeKeys]⟩
  | midtonesChange => exact ⟨_, rfl, hk, by simp [rangeKeys]⟩
  | highlightsChange => exact ⟨_, rfl, hk, by simp [rangeKeys]⟩
  | rInput v => exact input _
  | gInput v => exact input _
  | bInput v => exact input _
  | downloadClick =>
    obtain ⟨c, hc⟩ := readColors_of_keys _ hk
    obtain ⟨cv, hcv⟩ : ∃ cv, render s.colors s.canvas s.image = some cv :=
      ⟨_, render_of_readColors _ _ _ c hc⟩
    exact ⟨⟨s.colors, s.mode, cv, s.image⟩, by simp only [step, hcv], hk, hm⟩

theorem run_wellFormed (events : List Event) :
    ∀ s : App, s.WellFormed → ∃ s1, run s events = some s1 ∧ s1.WellFormed := by
  induction events with
  | nil =>
    intro s h
    exact ⟨s, rfl, h⟩
  | cons e es ih =>
    intro s h
    obtain ⟨s1, h1, w1⟩ := step_wellFormed s e h
    obtain ⟨s2, h2, w2⟩ := ih s1 w1
    exact ⟨s2, by simp only [run, h1, h2], w2⟩

theorem Table.set_cons (k : String) (x : RGB) (rest : Table) (key : String) (e : RGB) :
    Table.set ((k, x) :: rest) key e
      = (if k = key then (k, e) else (k, x)) :: Table.set rest key e := by
  rfl

theorem Table.get_cons (k : String) (x : RGB) (rest : Table) (key : String) :
    Table.get ((k, x) :: rest) key = if key = k then some x else Table.get rest key := by
  unfold Table.get
  rw [List.lookup_cons]
  by_cases h : key = k
  · have hb : (key == k) = true := beq_iff_eq.mpr h
    rw [hb, if_pos h]
  · have hb : (key == k) = false := beq_eq_false_iff_ne.mpr h
    rw [hb, if_neg h]

theorem Table.get_set_self (t : Table) (key : String) (e : RGB) :
    (t.set key e).get key = (t.get key).map (fun _ => e) := by
  induction t with
  | nil => rfl
  | cons p rest ih =>
    obtain ⟨k, x⟩ := p
    rw [Table.set_cons, Table.get_cons k x]
    by_cases hk : k = key
    · rw [if_pos hk, Table.get_cons, if_pos hk.symm, if_pos hk.symm]
      rfl
    · have hne : ¬ key = k := fun h => hk h.symm
      rw [if_neg hk, Table.get_cons, if_neg hne, if_neg hne]
      exact ih

theorem Table.get_set_ne (t : Table) (key k : String) (e : RGB) (h : k ≠ key) :
    (t.set key e).get k = t.get k := by
  induction t with
  | nil => rfl
  | cons p rest ih =>
    obtain ⟨k1, x⟩ := p
    rw [Table.set_cons, Table.get_cons k1 x]
    by_cases hk : k1 = key
    · have hne : ¬ k = k1 := fun h1 => h (h1.trans hk)
      rw [if_pos hk, Table.get_cons, if_neg hne, if_neg hne]
      exact ih
    · rw [if_neg hk, Table.get_cons]
      by_cases hk1 : k = k1
      · rw [if_pos hk1, if_pos hk1]
      · rw [if_neg hk1, if_neg hk1]
        exact ih

theorem inputHandler_effect (s : App) (write : RGB → RGB) (h : s.WellFormed) :
    ∃ e s1, s.colors.get s.mode = some e ∧ inputHandler s write = some s1
      ∧ s1.colors.get s.mode = some (write e)
      ∧ (∀ key, key ≠ s.mode → s1.colors.get key = s.colors.get key)
      ∧ s1.mode = s.mode ∧ s1.colors.keys = s.colors.keys := by
  obtain ⟨hk, hm⟩ := h
  obtain ⟨en, hen⟩ := Table.get_of_keys s.colors s.mode hk hm
  have hk1 : (s.colors.set s.mode (write en)).keys = rangeKeys := by
    rw [Table.keys_set, hk]
  obtain ⟨c, hc⟩ := readColors_of_keys _ hk1
  obtain ⟨cv, hcv⟩ :
      ∃ cv, render (s.colors.set s.mode (write en)) s.canvas s.image = some cv :=
    ⟨_, render_of_readColors _ _ _ c hc⟩
  refine ⟨en, ⟨s.colors.set s.mode (write en), s.mode, cv, s.image⟩, hen,
    by simp only [inputHandler, hen, hcv], ?_, ?_, rfl, Table.keys_set _ _ _⟩
  · show (s.colors.set s.mode (write en)).get s.mode = some (write en)
    rw [Table.get_set_self, hen]
    rfl
  · intro key hkey
    exact Table.get_set_ne _ _ _ _ hkey

theorem roundTo_of_nonneg (p : ℕ) (emin : ℤ) (x : ℚ) (hx : 0 ≤ x) :
    roundTo p emin x = roundMag p emin x :=
  if_pos hx

theorem roundTo_of_neg (p : ℕ) (emin : ℤ) (x : ℚ) (hx : x < 0) :
    roundTo p emin x = -roundMag p emin (-x) :=
  if_neg (not_le.mpr hx)

theorem roundTo_zero (p : ℕ) (emin : ℤ) : roundTo p emin 0 = 0 := by
  rw [roundTo_of_nonneg p emin 0 le_rfl, roundMag_zero]

theorem roundTo_nonneg (p : ℕ) (emin : ℤ) (x : ℚ) (hx : 0 ≤ x) : 0 ≤ roundTo p emin x := by
  rw [roundTo_of_nonneg p emin x hx]
  exact roundMag_nonneg p emin x hx

theorem roundTo_nonpos (p : ℕ) (emin : ℤ) (x : ℚ) (hx : x ≤ 0) : roundTo p emin x ≤ 0 := by
  rcases eq_or_lt_of_le hx with h0 | hneg
  · rw [h0, roundTo_zero]
  · rw [roundTo_of_neg p emin x hneg]
    have := roundMag_nonneg p emin (-x) (by linarith)
    linarith

theorem roundTo_eq (p : ℕ) (emin : ℤ) (x : ℚ) (e k : ℤ) (he : emin ≤ e)
    (h1 : (2 : ℚ) ^ e ≤ x) (h2 : x < (2 : ℚ) ^ (e + 1))
    (hk : |x / (2 : ℚ) ^ (e - ((p : ℤ) - 1)) - k| < 1 / 2) :
    roundTo p emin x = k * (2 : ℚ) ^ (e - ((p : ℤ) - 1)) := by
  have hx : 0 < x := lt_of_lt_of_le (zpow_pos (by norm_num) e) h1
  rw [roundTo_of_nonneg p emin x hx.le]
  exact roundMag_eq p emin x e k he h1 h2 hk

theorem roundTo_neg_eq (p : ℕ) (emin : ℤ) (x : ℚ) (e k : ℤ) (he : emin ≤ e)
    (h1 : (2 : ℚ) ^ e ≤ x) (h2 : x < (2 : ℚ) ^ (e + 1))
    (hk : |x / (2 : ℚ) ^ (e - ((p : ℤ) - 1)) - k| < 1 / 2) :
    roundTo p emin (-x) = -(k * (2 : ℚ) ^ (e - ((p : ℤ) - 1))) := by
  have hx : 0 < x := lt_of_lt_of_le (zpow_pos (by norm_num) e) h1
  rw [roundTo_of_neg p emin (-x) (by linarith), neg_neg]
  rw [roundMag_eq p emin x e k he h1 h2 hk]

theorem roundTo_le (p : ℕ) (emin : ℤ) (x t : ℚ) (e m : ℤ) (he : emin ≤ e)
    (ht : t = m * (2 : ℚ) ^ (e - ((p : ℤ) - 1))) (ht2 : t < (2 : ℚ) ^ (e + 1))
    (h0 : 0 ≤ t) (hxt : x ≤ t) : roundTo p emin x ≤ t := by
  rcases le_or_lt 0 x with hx | hx
  · rw [roundTo_of_nonneg p emin x hx]
    exact roundMag_le p emin x t e m he ht ht2 hx hxt
  · exact le_trans (roundTo_nonpos p emin x hx.le) h0

theorem neg_le_roundTo (p : ℕ) (emin : ℤ) (x t : ℚ) (e m : ℤ) (he : emin ≤ e)
    (ht : t = m * (2 : ℚ) ^ (e - ((p : ℤ) - 1))) (ht2 : t < (2 : ℚ) ^ (e + 1))
    (h0 : 0 ≤ t) (hxt : -t ≤ x) : -t ≤ roundTo p emin x := by
  rcases le_or_lt 0 x with hx | hx
  · have := roundTo_nonneg p emin x hx
    linarith
  · rw [roundTo_of_neg p emin x hx]
    have := roundMag_le p emin (-x) t e m he ht ht2 (by linarith) (by linarith)
    linarith

theorem roundTo_sub_le (p : ℕ) (emin : ℤ) (x : ℚ) (e : ℤ) (he : emin ≤ e) (h0 : 0 ≤ e)
    (h2 : |x| < (2 : ℚ) ^ (e + 1)) : |roundTo p emin x - x| ≤ (2 : ℚ) ^ (e - (p : ℤ)) := by
  rw [abs_lt] at h2
  rcases le_or_lt 0 x with hx | hx
  · rw [roundTo_of_nonneg p emin x hx]
    exact roundMag_sub_le p emin x e he hx h2.2 (Or.inl h0)
  · rw [roundTo_of_neg p emin x hx]
    have h := roundMag_sub_le p emin (-x) e he (by linarith) (by linarith) (Or.inl h0)
    rw [abs_le] at h ⊢
    constructor <;> linarith [h.1, h.2]

/-- The shader's literal `0.333333333` as a binary32 number. -/
theorem fl32_literal : fl32 (333333333 / 1000000000) = 11184811 / 33554432 := by
  unfold fl32
  rw [roundTo_eq 24 (-126) _ (-2) 11184811 (by norm_num) (by norm_num) (by norm_num)
    (by norm_num [abs_lt])]
  norm_num

theorem fl32_le_one (x : ℚ) (h : x ≤ 1) : fl32 x ≤ 1 :=
  roundTo_le 24 (-126) x 1 0 8388608 (by norm_num) (by norm_num) (by norm_num)
    (by norm_num) h

theorem fl32_le_two (x : ℚ) (h : x ≤ 2) : fl32 x ≤ 2 :=
  roundTo_le 24 (-126) x 2 1 8388608 (by norm_num) (by norm_num) (by norm_num)
    (by norm_num) h

theorem fl32_le_three (x : ℚ) (h : x ≤ 3) : fl32 x ≤ 3 :=
  roundTo_le 24 (-126) x 3 1 12582912 (by norm_num) (by norm_num) (by norm_num)
    (by norm_num) h

theorem fl32_nonneg (x : ℚ) (h : 0 ≤ x) : 0 ≤ fl32 x :=
  roundTo_nonneg 24 (-126) x h

theorem fl32_zero : fl32 0 = 0 :=
  roundTo_zero 24 (-126)

theorem fl32_one : fl32 1 = 1 := by
  unfold fl32
  rw [roundTo_eq 24 (-126) 1 0 8388608 (by norm_num) (by norm_num) (by norm_num)
    (by norm_num [abs_lt])]
  norm_num

theorem fl32_two : fl32 2 = 2 := by
  unfold fl32
  rw [roundTo_eq 24 (-126) 2 1 8388608 (by norm_num) (by norm_num) (by norm_num)
    (by norm_num [abs_lt])]
  norm_num

theorem fl32_three : fl32 3 = 3 := by
  unfold fl32
  rw [roundTo_eq 24 (-126) 3 1 12582912 (by norm_num) (by norm_num) (by norm_num)
    (by norm_num [abs_lt])]
  norm_num

/-- A product just above 1: anything up to `1 + 2^-24` short of the tie rounds to at
most 1 in binary32. -/
theorem fl32_le_one_of_le (x : ℚ) (h : x ≤ 33554433 / 33554432) : fl32 x ≤ 1 := by
  rcases le_or_lt x 1 with h1 | h1
  · exact fl32_le_one x h1
  · unfold fl32
    rw [roundTo_eq 24 (-126) x 0 8388608 (by norm_num) (by norm_num; linarith)
      (by norm_num; linarith)
      (by
        rw [abs_lt]
        norm_num
        constructor <;> linarith)]
    norm_num

theorem intensity_black : intensity black = 0 := by
  simp only [intensity, black, add_zero, fl32_zero, zero_mul]

theorem intensity_white : intensity white = 1 := by
  have h3 : fl32 ((3 : ℚ) * (11184811 / 33554432)) = 1 := by
    unfold fl32
    rw [roundTo_eq 24 (-126) _ 0 8388608 (by norm_num) (by norm_num) (by norm_num)
      (by norm_num [abs_lt])]
    norm_num
  have e2 : ((1 : ℚ) + 1) = 2 := by norm_num
  have e3 : ((2 : ℚ) + 1) = 3 := by norm_num
  simp only [intensity, white, e2, fl32_two, e3, fl32_three, fl32_literal, h3]

theorem intensity_range (c : Vec3)
    (hr : 0 ≤ c.r ∧ c.r ≤ 1) (hg : 0 ≤ c.g ∧ c.g ≤ 1) (hb : 0 ≤ c.b ∧ c.b ≤ 1) :
    0 ≤ intensity c ∧ intensity c ≤ 1 := by
  obtain ⟨hr0, hr1⟩ := hr
  obtain ⟨hg0, hg1⟩ := hg
  obtain ⟨hb0, hb1⟩ := hb
  have a0 : 0 ≤ fl32 (c.r + c.g) := fl32_nonneg _ (by linarith)
  have a1 : fl32 (c.r + c.g) ≤ 2 := fl32_le_two _ (by linarith)
  have b0 : 0 ≤ fl32 (fl32 (c.r + c.g) + c.b) := fl32_nonneg _ (by linarith)
  have b1 : fl32 (fl32 (c.r + c.g) + c.b) ≤ 3 := fl32_le_three _ (by linarith)
  unfold intensity
  rw [fl32_literal]
  constructor
  · apply fl32_nonneg
    apply mul_nonneg b0
    norm_num
  · apply fl32_le_one_of_le
    linarith

theorem fl32_sub_le_sum (x : ℚ) (h : |x| < 4) : |fl32 x - x| ≤ 1 / 8388608 := by
  have := roundTo_sub_le 24 (-126) x 1 (by norm_num) (by norm_num) (by norm_num; exact h)
  norm_num at this
  exact this

theorem fl32_sub_le_product (x : ℚ) (h : |x| < 2) : |fl32 x - x| ≤ 1 / 16777216 := by
  have := roundTo_sub_le 24 (-126) x 0 (by norm_num) (by norm_num) (by norm_num; exact h)
  norm_num at this
  exact this

theorem intensity_near (c : Vec3)
    (hr : 0 ≤ c.r ∧ c.r ≤ 1) (hg : 0 ≤ c.g ∧ c.g ≤ 1) (hb : 0 ≤ c.b ∧ c.b ≤ 1) :
    |intensity c - (c.r + c.g + c.b) / 3| ≤ 1 / 4194304 := by
  obtain ⟨hr0, hr1⟩ := hr
  obtain ⟨hg0, hg1⟩ := hg
  obtain ⟨hb0, hb1⟩ := hb
  have a0 : 0 ≤ fl32 (c.r + c.g) := fl32_nonneg _ (by linarith)
  have a1 : fl32 (c.r + c.g) ≤ 2 := fl32_le_two _ (by linarith)
  have b0 : 0 ≤ fl32 (fl32 (c.r + c.g) + c.b) := fl32_nonneg _ (by linarith)
  have b1 : fl32 (fl32 (c.r + c.g) + c.b) ≤ 3 := fl32_le_three _ (by linarith)
  have ea := fl32_sub_le_sum (c.r + c.g) (by rw [abs_lt]; constructor <;> linarith)
  have eb := fl32_sub_le_sum (fl32 (c.r + c.g) + c.b)
    (by rw [abs_lt]; constructor <;> linarith)
  have ec := fl32_sub_le_product (fl32 (fl32 (c.r + c.g) + c.b) * (11184811 / 33554432))
    (by rw [abs_lt]; constructor <;> linarith)
  unfold intensity
  rw [fl32_literal]
  rw [abs_le] at ea eb ec ⊢
  constructor <;> linarith [ea.1, ea.2, eb.1, eb.2, ec.1, ec.2]

theorem getColor_bounds (v : ℚ) (hlo : -255 ≤ v) (hhi : v ≤ 255) :
    -1 ≤ getColor v ∧ getColor v ≤ 1 := by
  rw [getColor_eq_div]
  constructor
  · rw [le_div_iff₀ (by norm_num : (0 : ℚ) < 255)]
    linarith
  · rw [div_le_iff₀ (by norm_num : (0 : ℚ) < 255)]
    linarith

theorem render_uniforms (t : Table) (canvas : Canvas) (image : Image) (c : Colors)
    (h : readColors t = some c) :
    ∃ cv, render t canvas image = some cv ∧ cv.uniforms = renderUniforms c :=
  ⟨_, render_of_readColors t canvas image c h, rfl⟩

theorem inputHandler_uniforms (s : App) (write : RGB → RGB) (h : s.WellFormed) :
    ∃ e s1, s.colors.get s.mode = some e ∧ inputHandler s write = some s1
      ∧ s1.colors.get s.mode = some (write e)
      ∧ (s.mode = "shadows" → s1.canvas.uniforms.u_shadows = uniformOf (write e))
      ∧ (s.mode = "midtones" → s1.canvas.uniforms.u_midtones = uniformOf (write e))
      ∧ (s.mode = "highlights" → s1.canvas.uniforms.u_highlights = uniformOf (write e)) := by
  obtain ⟨colors, mode, canvas, image⟩ := s
  obtain ⟨hk, hm⟩ := h
  obtain ⟨x, y, z, rfl⟩ := Table.shape colors hk
  simp only [rangeKeys, List.mem_cons, List.mem_singleton, List.not_mem_nil, or_false] at hm
  rcases hm with rfl | rfl | rfl
  · obtain ⟨cv, hcv, hu⟩ := render_uniforms
      [("shadows", write x), ("midtones", y), ("highlights", z)] canvas image
      ⟨write x, y, z⟩ (by simp [readColors, Table.get, List.lookup])
    refine ⟨x, ⟨[("shadows", write x), ("midtones", y), ("highlights", z)], "shadows",
      cv, image⟩, ?_, ?_, ?_, ?_, ?_, ?_⟩
    · simp [Table.get, List.lookup]
    · simp [inputHandler, Table.get, Table.set, List.lookup, hcv]
    · simp [Table.get, List.lookup]
    · intro _
      simp [hu, renderUniforms]
    · intro hm
      simp at hm
    · intro hm
      simp at hm
  · obtain ⟨cv, hcv, hu⟩ := render_uniforms
      [("shadows", x), ("midtones", write y), ("highlights", z)] canvas image
      ⟨x, write y, z⟩ (by simp [readColors, Table.get, List.lookup])
    refine ⟨y, ⟨[("shadows", x), ("midtones", write y), ("highlights", z)], "midtones",
      cv, image⟩, ?_, ?_, ?_, ?_, ?_, ?_⟩
    · simp [Table.get, List.lookup]
    · simp [inputHandler, Table.get, Table.set, List.lookup, hcv]
    · simp [Table.get, List.lookup]
    · intro hm
      simp at hm
    · intro _
      simp [hu, renderUniforms]
    · intro hm
      simp at hm
  · obtain ⟨cv, hcv, hu⟩ := render_uniforms
      [("shadows", x), ("midtones", y), ("highlights", write z)] canvas image
      ⟨x, y, write z⟩ (by simp [readColors, Table.get, List.lookup])
    refine ⟨z, ⟨[("shadows", x), ("midtones", y), ("highlights", write z)], "highlights",
      cv, image⟩, ?_, ?_, ?_, ?_, ?_, ?_⟩
    · simp [Table.get, List.lookup]
    · simp [inputHandler, Table.get, Table.set, List.lookup, hcv]
    · simp [Table.get, List.lookup]
    · intro hm
      simp at hm
    · intro hm
      simp at hm
    · intro _
      simp [hu, renderUniforms]

theorem fl64_eq (x : ℚ) (e k : ℤ) (he : -1022 ≤ e)
    (h1 : (2 : ℚ) ^ e ≤ x) (h2 : x < (2 : ℚ) ^ (e + 1))
    (hk : |x / (2 : ℚ) ^ (e - 52) - k| < 1 / 2) : fl64 x = k * (2 : ℚ) ^ (e - 52) := by
  have := roundTo_eq 53 (-1022) x e k he h1 h2 (by norm_num; exact hk)
  norm_num at this
  exact this

theorem fl64_neg_eq (x : ℚ) (e k : ℤ) (he : -1022 ≤ e)
    (h1 : (2 : ℚ) ^ e ≤ x) (h2 : x < (2 : ℚ) ^ (e + 1))
    (hk : |x / (2 : ℚ) ^ (e - 52) - k| < 1 / 2) :
    fl64 (-x) = -(k * (2 : ℚ) ^ (e - 52)) := by
  have := roundTo_neg_eq 53 (-1022) x e k he h1 h2 (by norm_num; exact hk)
  norm_num at this
  exact this

theorem fl64_zero : fl64 0 = 0 :=
  roundTo_zero 53 (-1022)

theorem fl64_one : fl64 1 = 1 := by
  rw [fl64_eq 1 0 4503599627370496 (by norm_num) (by norm_num) (by norm_num)
    (by norm_num [abs_lt])]
  norm_num

theorem fl64_255 : fl64 255 = 255 := by
  rw [fl64_eq 255 7 8972014882652160 (by norm_num) (by norm_num) (by norm_num)
    (by norm_num [abs_lt])]
  norm_num

theorem fl64_nonneg (x : ℚ) (h : 0 ≤ x) : 0 ≤ fl64 x :=
  roundTo_nonneg 53 (-1022) x h

theorem fl64_nonpos (x : ℚ) (h : x ≤ 0) : fl64 x ≤ 0 :=
  roundTo_nonpos 53 (-1022) x h

theorem fl64_le_one (x : ℚ) (h : x ≤ 1) : fl64 x ≤ 1 :=
  roundTo_le 53 (-1022) x 1 0 4503599627370496 (by norm_num) (by norm_num) (by norm_num)
    (by norm_num) h

theorem fl64_le_two (x : ℚ) (h : x ≤ 2) : fl64 x ≤ 2 :=
  roundTo_le 53 (-1022) x 2 1 4503599627370496 (by norm_num) (by norm_num) (by norm_num)
    (by norm_num) h

theorem fl64_le_255 (x : ℚ) (h : x ≤ 255) : fl64 x ≤ 255 :=
  roundTo_le 53 (-1022) x 255 7 8972014882652160 (by norm_num) (by norm_num) (by norm_num)
    (by norm_num) h

theorem fl64_le_510 (x : ℚ) (h : x ≤ 510) : fl64 x ≤ 510 :=
  roundTo_le 53 (-1022) x 510 8 8972014882652160 (by norm_num) (by norm_num) (by norm_num)
    (by norm_num) h

theorem neg_one_le_fl64 (x : ℚ) (h : -1 ≤ x) : -1 ≤ fl64 x :=
  neg_le_roundTo 53 (-1022) x 1 0 4503599627370496 (by norm_num) (by norm_num)
    (by norm_num) (by norm_num) h

theorem neg_two_le_fl64 (x : ℚ) (h : -2 ≤ x) : -2 ≤ fl64 x :=
  neg_le_roundTo 53 (-1022) x 2 1 4503599627370496 (by norm_num) (by norm_num)
    (by norm_num) (by norm_num) h

theorem neg_255_le_fl64 (x : ℚ) (h : -255 ≤ x) : -255 ≤ fl64 x :=
  neg_le_roundTo 53 (-1022) x 255 7 8972014882652160 (by norm_num) (by norm_num)
    (by norm_num) (by norm_num) h

theorem neg_510_le_fl64 (x : ℚ) (h : -510 ≤ x) : -510 ≤ fl64 x :=
  neg_le_roundTo 53 (-1022) x 510 8 8972014882652160 (by norm_num) (by norm_num)
    (by norm_num) (by norm_num) h

theorem fl64_sub_le_512 (x : ℚ) (h : |x| < 512) :
    |fl64 x - x| ≤ 1 / 35184372088832 := by
  have := roundTo_sub_le 53 (-1022) x 8 (by norm_num) (by norm_num) (by norm_num; exact h)
  norm_num at this
  exact this

theorem fl64_sub_le_256 (x : ℚ) (h : |x| < 256) :
    |fl64 x - x| ≤ 1 / 70368744177664 := by
  have := roundTo_sub_le 53 (-1022) x 7 (by norm_num) (by norm_num) (by norm_num; exact h)
  norm_num at this
  exact this

theorem fl64_sub_le_4 (x : ℚ) (h : |x| < 4) :
    |fl64 x - x| ≤ 1 / 4503599627370496 := by
  have := roundTo_sub_le 53 (-1022) x 1 (by norm_num) (by norm_num) (by norm_num; exact h)
  norm_num at this
  exact this

theorem fl64_sub_le_2 (x : ℚ) (h : |x| < 2) :
    |fl64 x - x| ≤ 1 / 9007199254740992 := by
  have := roundTo_sub_le 53 (-1022) x 0 (by norm_num) (by norm_num) (by norm_num; exact h)
  norm_num at this
  exact this

theorem getColorThen64_near (f v : ℚ) (hf : |f - v| ≤ 1 / 70368744177664)
    (hlo : -255 ≤ f) (hhi : f ≤ 255) :
    |getColorThen64 f - v / 255| ≤ 1 / 1125899906842624 := by
  have a0 : 0 ≤ fl64 (255 + f) := fl64_nonneg _ (by linarith)
  have a1 : fl64 (255 + f) ≤ 510 := fl64_le_510 _ (by linarith)
  have ea := fl64_sub_le_512 (255 + f) (by rw [abs_lt]; constructor <;> linarith)
  have b0 : 0 ≤ fl64 (fl64 (255 + f) / 255) :=
    fl64_nonneg _ (div_nonneg a0 (by norm_num))
  have hq : fl64 (255 + f) / 255 ≤ 2 := by
    rw [div_le_iff₀ (by norm_num : (0 : ℚ) < 255)]
    linarith
  have hq0 : 0 ≤ fl64 (255 + f) / 255 := div_nonneg a0 (by norm_num)
  have b1 : fl64 (fl64 (255 + f) / 255) ≤ 2 := fl64_le_two _ hq
  have eb := fl64_sub_le_4 (fl64 (255 + f) / 255)
    (by rw [abs_lt]; constructor <;> linarith)
  have ec := fl64_sub_le_2 (fl64 (fl64 (255 + f) / 255) - 1)
    (by rw [abs_lt]; constructor <;> linarith)
  unfold getColorThen64
  rw [abs_le] at hf ea eb ec ⊢
  have e1 : fl64 (255 + f) / 255 - (255 + v) / 255
      = (fl64 (255 + f) - (255 + f)) / 255 + (f - v) / 255 := by ring
  have u1 : (fl64 (255 + f) - (255 + f)) / 255 ≤ 1 / 35184372088832 / 255 :=
    div_le_div_of_nonneg_right ea.2 (by norm_num)
  have l1 : -(1 / 35184372088832) / 255 ≤ (fl64 (255 + f) - (255 + f)) / 255 :=
    div_le_div_of_nonneg_right ea.1 (by norm_num)
  have u2 : (f - v) / 255 ≤ 1 / 70368744177664 / 255 :=
    div_le_div_of_nonneg_right hf.2 (by norm_num)
  have l2 : -(1 / 70368744177664) / 255 ≤ (f - v) / 255 :=
    div_le_div_of_nonneg_right hf.1 (by norm_num)
  have e2 : (255 + v) / 255 = 1 + v / 255 := by ring
  constructor <;> linarith [eb.1, eb.2, ec.1, ec.2]

theorem getColorElse64_near (f v : ℚ) (hf : |f - v| ≤ 1 / 70368744177664)
    (hlo : -255 ≤ f) (hhi : f ≤ 255) :
    |getColorElse64 f - v / 255| ≤ 1 / 1125899906842624 := by
  have a0 : fl64 (f - 255) ≤ 0 := fl64_nonpos _ (by linarith)
  have a1 : -510 ≤ fl64 (f - 255) := neg_510_le_fl64 _ (by linarith)
  have ea := fl64_sub_le_512 (f - 255) (by rw [abs_lt]; constructor <;> linarith)
  have hq : -2 ≤ fl64 (f - 255) / 255 := by
    rw [le_div_iff₀ (by norm_num : (0 : ℚ) < 255)]
    linarith
  have hq0 : fl64 (f - 255) / 255 ≤ 0 := div_nonpos_of_nonpos_of_nonneg a0 (by norm_num)
  have b0 : fl64 (fl64 (f - 255) / 255) ≤ 0 := fl64_nonpos _ hq0
  have b1 : -2 ≤ fl64 (fl64 (f - 255) / 255) := neg_two_le_fl64 _ hq
  have eb := fl64_sub_le_4 (fl64 (f - 255) / 255)
    (by rw [abs_lt]; constructor <;> linarith)
  have ec := fl64_sub_le_2 (1 + fl64 (fl64 (f - 255) / 255))
    (by rw [abs_lt]; constructor <;> linarith)
  unfold getColorElse64
  rw [abs_le] at hf ea eb ec ⊢
  have e1 : fl64 (f - 255) / 255 - (v - 255) / 255
      = (fl64 (f - 255) - (f - 255)) / 255 + (f - v) / 255 := by ring
  have u1 : (fl64 (f - 255) - (f - 255)) / 255 ≤ 1 / 35184372088832 / 255 :=
    div_le_div_of_nonneg_right ea.2 (by norm_num)
  have l1 : -(1 / 35184372088832) / 255 ≤ (fl64 (f - 255) - (f - 255)) / 255 :=
    div_le_div_of_nonneg_right ea.1 (by norm_num)
  have u2 : (f - v) / 255 ≤ 1 / 70368744177664 / 255 :=
    div_le_div_of_nonneg_right hf.2 (by norm_num)
  have l2 : -(1 / 70368744177664) / 255 ≤ (f - v) / 255 :=
    div_le_div_of_nonneg_right hf.1 (by norm_num)
  have e2 : (v - 255) / 255 = v / 255 - 1 := by ring
  constructor <;> linarith [eb.1, eb.2, ec.1, ec.2]

theorem getColor64_range (v : ℚ) (h0 : 0 ≤ v) (h1 : v ≤ 255) :
    0 ≤ getColor64 v ∧ getColor64 v ≤ 1 := by
  have f0 : 0 ≤ fl64 v := fl64_nonneg v h0
  have f1 : fl64 v ≤ 255 := fl64_le_255 v h1
  unfold getColor64
  split_ifs with hf
  · have hz : fl64 v = 0 := le_antisymm hf f0
    have e1 : ((255 : ℚ) + 0) = 255 := by norm_num
    have e2 : ((255 : ℚ) / 255) = 1 := by norm_num
    have e3 : ((1 : ℚ) - 1) = 0 := by norm_num
    simp only [getColorThen64, hz, e1, fl64_255, e2, fl64_one, e3, fl64_zero]
    norm_num
  · have a0 : fl64 (fl64 v - 255) ≤ 0 := fl64_nonpos _ (by linarith)
    have a1 : -255 ≤ fl64 (fl64 v - 255) := neg_255_le_fl64 _ (by linarith)
    have hq : -1 ≤ fl64 (fl64 v - 255) / 255 := by
      rw [le_div_iff₀ (by norm_num : (0 : ℚ) < 255)]
      linarith
    have hq0 : fl64 (fl64 v - 255) / 255 ≤ 0 :=
      div_nonpos_of_nonpos_of_nonneg a0 (by norm_num)
    have b0 : fl64 (fl64 (fl64 v - 255) / 255) ≤ 0 := fl64_nonpos _ hq0
    have b1 : -1 ≤ fl64 (fl64 (fl64 v - 255) / 255) := neg_one_le_fl64 _ hq
    unfold getColorElse64
    exact ⟨fl64_nonneg _ (by linarith), fl64_le_one _ (by linarith)⟩

/-! ## Kernel identity and the kernel formula -/

/-- C1 (kernel identity): with the shadows, midtones and highlights offsets all `(0,0,0)`,
`color_balance` returns the input colour unchanged for every pixel, and the fragment
shader's output texel equals the source texel; the table `colors` of raw zeros binds
exactly these offsets. -/
theorem color_balance_zero_offsets (c : Vec3) (texel : Vec4) :
    color_balance zeroUniforms c = c
      ∧ fragMain zeroUniforms texel = texel
      ∧ renderUniforms ⟨⟨0, 0, 0⟩, ⟨0, 0, 0⟩, ⟨0, 0, 0⟩⟩ = zeroUniforms := by
  have h : ∀ x : Vec3, color_balance zeroUniforms x = x := by
    intro x
    apply Vec3.ext_rgb
    · rw [color_balance_r]; simp [zeroUniforms, zeroOffset]
    · rw [color_balance_g]; simp [zeroUniforms, zeroOffset]
    · rw [color_balance_b]; simp [zeroUniforms, zeroOffset]
  refine ⟨h c, ?_, ?_⟩
  · cases texel
    simp [fragMain, Vec4.setRgb, Vec4.rgb, h]
  · simp [renderUniforms, uniformOf, zeroUniforms, zeroOffset, getColor]

/-- C2 (kernel formula): for every pixel and every three offsets, each channel of
`color_balance` is pixel + shadows * (1 - I)^3 + midtones * (1 - |2 I - 1|)^3
+ highlights * I^3 with `I` the intensity the kernel computed, and the final `mix` with
amount 1.0 returns exactly the colorized value. -/
theorem color_balance_formula (u : Uniforms) (c : Vec3) :
    (color_balance u c).r
        = c.r + u.u_shadows.r * (1 - intensity c) ^ 3
            + u.u_midtones.r * (1 - |2 * intensity c - 1|) ^ 3
            + u.u_highlights.r * intensity c ^ 3
      ∧ (color_balance u c).g
        = c.g + u.u_shadows.g * (1 - intensity c) ^ 3
            + u.u_midtones.g * (1 - |2 * intensity c - 1|) ^ 3
            + u.u_highlights.g * intensity c ^ 3
      ∧ (color_balance u c).b
        = c.b + u.u_shadows.b * (1 - intensity c) ^ 3
            + u.u_midtones.b * (1 - |2 * intensity c - 1|) ^ 3
            + u.u_highlights.b * intensity c ^ 3
      ∧ color_balance u c = colorization u c
      ∧ amount = 1 := by
  have hm : midtones_bleed (intensity c) = (1 - |2 * intensity c - 1|) ^ 3 := by
    have e : (-1 + intensity c * 2) = 2 * intensity c - 1 := by ring
    simp only [midtones_bleed, e]
    ring
  have hs : shadows_bleed (intensity c) = (1 - intensity c) ^ 3 := by
    simp only [shadows_bleed]
    ring
  have hh : highlights_bleed (intensity c) = intensity c ^ 3 := by
    simp only [highlights_bleed]
    ring
  refine ⟨?_, ?_, ?_, ?_, rfl⟩
  · rw [color_balance_r, hs, hm, hh]
  · rw [color_balance_g, hs, hm, hh]
  · rw [color_balance_b, hs, hm, hh]
  · apply Vec3.ext_rgb <;>
      simp [color_balance, mix, amount, Vec3.add, Vec3.scale]

/-! ## The intensity -/

/-- C3, refuted as stated: for the pixel `(1, 0, 0)`, whose components lie in `[0, 1]`,
the intensity the kernel uses is the binary32 number `11184811 / 33554432`, which is not
`(r + g + b) / 3`. -/
theorem intensity_ne_third :
    intensity ⟨1, 0, 0⟩ = 11184811 / 33554432
      ∧ ¬ ((0 : ℚ) ≤ 1 ∧ (1 : ℚ) ≤ 1 ∧ (0 : ℚ) ≤ 0 ∧ (0 : ℚ) ≤ 1
        → intensity ⟨1, 0, 0⟩ = (1 + 0 + 0) / 3) := by
  have hc : fl32 ((1 : ℚ) * (11184811 / 33554432)) = 11184811 / 33554432 := by
    unfold fl32
    rw [roundTo_eq 24 (-126) _ (-2) 11184811 (by norm_num) (by norm_num) (by norm_num)
      (by norm_num [abs_lt])]
    norm_num
  have h : intensity ⟨1, 0, 0⟩ = 11184811 / 33554432 := by
    simp only [intensity, add_zero, fl32_one, fl32_literal, hc]
  refine ⟨h, ?_⟩
  rw [h]
  norm_num

/-- C3, amended: for every pixel with components in `[0, 1]` the intensity the kernel uses
is the binary32 result of `(r + g + b) * 0.333333333`, the literal being the binary32
number `11184811 / 33554432`; it lies in `[0, 1]` and within `2^-22` of `(r + g + b) / 3`,
and a pure white pixel has intensity exactly 1. -/
theorem intensity_near_third (c : Vec3)
    (hr : 0 ≤ c.r ∧ c.r ≤ 1) (hg : 0 ≤ c.g ∧ c.g ≤ 1) (hb : 0 ≤ c.b ∧ c.b ≤ 1) :
    intensity c = fl32 (fl32 (fl32 (c.r + c.g) + c.b) * (11184811 / 33554432))
      ∧ (0 ≤ intensity c ∧ intensity c ≤ 1)
      ∧ |intensity c - (c.r + c.g + c.b) / 3| ≤ 1 / 2 ^ 22
      ∧ intensity ⟨1, 1, 1⟩ = 1 := by
  refine ⟨?_, intensity_range c hr hg hb, ?_, intensity_white⟩
  · unfold intensity
    rw [fl32_literal]
  · have h := intensity_near c hr hg hb
    norm_num at h ⊢
    exact h

theorem intensity_near_third_witness :
    intensity ⟨1, 1 / 2, 0⟩
        = fl32 (fl32 (fl32 ((1 : ℚ) + 1 / 2) + 0) * (11184811 / 33554432))
      ∧ (0 ≤ intensity ⟨1, 1 / 2, 0⟩ ∧ intensity ⟨1, 1 / 2, 0⟩ ≤ 1)
      ∧ |intensity ⟨1, 1 / 2, 0⟩ - ((1 : ℚ) + 1 / 2 + 0) / 3| ≤ 1 / 2 ^ 22
      ∧ intensity ⟨1, 1, 1⟩ = 1 :=
  intensity_near_third ⟨1, 1 / 2, 0⟩ (by norm_num) (by norm_num) (by norm_num)

/-! ## The tone weights -/

/-- C4 (boundary values of the tone weights, as functions of the intensity):
shadows(0) = 1, shadows(1) = 0, highlights(1) = 1, highlights(0) = 0, midtones(1/2) = 1
and midtones(0) = midtones(1) = 0. -/
theorem bleed_boundary_values :
    shadows_bleed 0 = 1 ∧ shadows_bleed 1 = 0
      ∧ highlights_bleed 1 = 1 ∧ highlights_bleed 0 = 0
      ∧ midtones_bleed (1 / 2) = 1
      ∧ midtones_bleed 0 = 0 ∧ midtones_bleed 1 = 0 := by
  refine ⟨?_, ?_, ?_, ?_, ?_, ?_, ?_⟩ <;>
    norm_num [shadows_bleed, highlights_bleed, midtones_bleed]

/-! ## The remap `getColor` -/

/-- C5 (remap end points): `getColor` sends the raw control value 0 to exactly 0 and the
raw control value 255 to exactly 1. -/
theorem getColor_end_points : getColor 0 = 0 ∧ getColor 255 = 1 := by
  constructor <;> norm_num [getColor]

/-- C6 (remap monotone): `getColor` is monotonic non-decreasing: for all `v1 ≤ v2`,
`getColor v1 ≤ getColor v2`, on the control domain `[0, 255]` and on either side of the
branch boundary at 0 alike. -/
theorem getColor_monotone (v1 v2 : ℚ) (h12 : v1 ≤ v2) : getColor v1 ≤ getColor v2 := by
  rw [getColor_eq_div, getColor_eq_div]
  exact div_le_div_of_nonneg_right h12 (by norm_num)

theorem getColor_monotone_witness : (0 : ℚ) ≤ 200 ∧ getColor 0 ≤ getColor 200 :=
  ⟨by norm_num, getColor_monotone 0 200 (by norm_num)⟩

/-- C7, refuted as stated: the raw value 510 is remapped to 2, outside `[-1, 1]`, and
`render` binds that value as the red shadows offset. -/
theorem getColor_510_out_of_range :
    ¬ (-1 ≤ getColor 510 ∧ getColor 510 ≤ 1)
      ∧ (renderUniforms ⟨⟨510, 0, 0⟩, ⟨0, 0, 0⟩, ⟨0, 0, 0⟩⟩).u_shadows.r = 2 := by
  constructor
  · norm_num [getColor]
  · norm_num [renderUniforms, uniformOf, getColor]

/-- C7, amended: the offsets `render` passes to the kernel are `getColor` of the raw
components of the table, all nine of them; when every raw component lies in
`[-255, 255]` each of them lies in `[-1, 1]`, and `getColor v` lies in `[0, 1]` for `v` in
`[0, 255]`. -/
theorem render_offsets_mem_unit (t : Table) (canvas : Canvas) (image : Image) (c : Colors)
    (hc : readColors t = some c)
    (hb : ∀ e ∈ [c.shadows, c.midtones, c.highlights],
      (-255 ≤ e.r ∧ e.r ≤ 255) ∧ (-255 ≤ e.g ∧ e.g ≤ 255) ∧ (-255 ≤ e.b ∧ e.b ≤ 255)) :
    ∃ out, render t canvas image = some out
      ∧ out.uniforms
          = ⟨⟨getColor c.shadows.r, getColor c.shadows.g, getColor c.shadows.b⟩,
              ⟨getColor c.midtones.r, getColor c.midtones.g, getColor c.midtones.b⟩,
              ⟨getColor c.highlights.r, getColor c.highlights.g,
                getColor c.highlights.b⟩⟩
      ∧ (∀ u ∈ [out.uniforms.u_shadows, out.uniforms.u_midtones, out.uniforms.u_highlights],
          (-1 ≤ u.r ∧ u.r ≤ 1) ∧ (-1 ≤ u.g ∧ u.g ≤ 1) ∧ (-1 ≤ u.b ∧ u.b ≤ 1))
      ∧ (∀ v : ℚ, -255 ≤ v → v ≤ 255 →
          (-1 ≤ getColor v ∧ getColor v ≤ 1) ∧ (0 ≤ v → 0 ≤ getColor v)) := by
  obtain ⟨out, hout, hu⟩ := render_uniforms t canvas image c hc
  have hs := hb c.shadows (by simp)
  have hm := hb c.midtones (by simp)
  have hh := hb c.highlights (by simp)
  refine ⟨out, hout, ?_, ?_, ?_⟩
  · rw [hu]
    rfl
  · intro u hmem
    rw [hu] at hmem
    simp only [renderUniforms, uniformOf, List.mem_cons, List.mem_singleton,
      List.not_mem_nil, or_false] at hmem
    rcases hmem with rfl | rfl | rfl
    · exact ⟨getColor_bounds _ hs.1.1 hs.1.2, getColor_bounds _ hs.2.1.1 hs.2.1.2,
        getColor_bounds _ hs.2.2.1 hs.2.2.2⟩
    · exact ⟨getColor_bounds _ hm.1.1 hm.1.2, getColor_bounds _ hm.2.1.1 hm.2.1.2,
        getColor_bounds _ hm.2.2.1 hm.2.2.2⟩
    · exact ⟨getColor_bounds _ hh.1.1 hh.1.2, getColor_bounds _ hh.2.1.1 hh.2.1.2,
        getColor_bounds _ hh.2.2.1 hh.2.2.2⟩
  · intro v hlo hhi
    refine ⟨getColor_bounds v hlo hhi, ?_⟩
    intro h0
    rw [getColor_eq_div]
    exact div_nonneg h0 (by norm_num)

theorem render_offsets_mem_unit_witness :
    ∃ out,
      render [("shadows", ⟨200, -100, 0⟩), ("midtones", ⟨255, 0, 0⟩),
          ("highlights", ⟨0, 0, -255⟩)]
          ⟨0, 0, (0, 0, 0, 0), (0, 0), [], zeroUniforms, []⟩
          ⟨2, 1, [⟨1, 1, 1, 1⟩, ⟨0, 0, 0, 1⟩]⟩ = some out
        ∧ out.uniforms
          = ⟨⟨getColor 200, getColor (-100), getColor 0⟩,
              ⟨getColor 255, getColor 0, getColor 0⟩,
              ⟨getColor 0, getColor 0, getColor (-255)⟩⟩
        ∧ (∀ u ∈ [out.uniforms.u_shadows, out.uniforms.u_midtones,
              out.uniforms.u_highlights],
            (-1 ≤ u.r ∧ u.r ≤ 1) ∧ (-1 ≤ u.g ∧ u.g ≤ 1) ∧ (-1 ≤ u.b ∧ u.b ≤ 1))
        ∧ (∀ v : ℚ, -255 ≤ v → v ≤ 255 →
            (-1 ≤ getColor v ∧ getColor v ≤ 1) ∧ (0 ≤ v → 0 ≤ getColor v)) :=
  render_offsets_mem_unit
    [("shadows", ⟨200, -100, 0⟩), ("midtones", ⟨255, 0, 0⟩), ("highlights", ⟨0, 0, -255⟩)]
    ⟨0, 0, (0, 0, 0, 0), (0, 0), [], zeroUniforms, []⟩
    ⟨2, 1, [⟨1, 1, 1, 1⟩, ⟨0, 0, 0, 1⟩]⟩
    ⟨⟨200, -100, 0⟩, ⟨255, 0, 0⟩, ⟨0, 0, -255⟩⟩
    (by simp [readColors, Table.get, List.lookup])
    (by
      intro e he
      simp only [List.mem_cons, List.mem_singleton, List.not_mem_nil, or_false] at he
      rcases he with rfl | rfl | rfl <;> norm_num)

/-- C8, refuted as stated: `getColor` has a number as its only result, and for the raw
value 510 that number is 2, while the remap of 510 clamped to `[0, 255]` is 1. -/
theorem getColor_510_not_clamped :
    ¬ (getColor 510 = getColor (clamp255 510))
      ∧ getColor 510 = 2 ∧ getColor (clamp255 510) = 1 := by
  norm_num [getColor, clamp255]

/-- C8, amended: neither the slider handlers nor `render` nor `getColor` clamp or reject a
raw value: in a session whose table has its three entries, a slider input with any value
`v` returns, stores `v`, and `render` binds `getColor v` for it as the offset of the active
range; for `v` above 255 that offset is greater than 1 and for `v` of -1 or below it is
negative, where the remap of the value clamped to `[0, 255]` is 1 and 0; for `v` in
`[0, 255]` clamping changes nothing. -/
theorem slider_value_unclamped (s : App) (v : ℚ) (h : s.WellFormed) :
    (∃ e s1, s.colors.get s.mode = some e ∧ step s (Event.rInput v) = some s1
        ∧ s1.colors.get s.mode = some ⟨v, e.g, e.b⟩
        ∧ (s.mode = "shadows" →
            s1.canvas.uniforms.u_shadows = ⟨getColor v, getColor e.g, getColor e.b⟩)
        ∧ (s.mode = "midtones" →
            s1.canvas.uniforms.u_midtones = ⟨getColor v, getColor e.g, getColor e.b⟩)
        ∧ (s.mode = "highlights" →
            s1.canvas.uniforms.u_highlights = ⟨getColor v, getColor e.g, getColor e.b⟩))
      ∧ (∃ e s1, s.colors.get s.mode = some e ∧ step s (Event.gInput v) = some s1
        ∧ s1.colors.get s.mode = some ⟨e.r, v, e.b⟩
        ∧ (s.mode = "shadows" →
            s1.canvas.uniforms.u_shadows = ⟨getColor e.r, getColor v, getColor e.b⟩)
        ∧ (s.mode = "midtones" →
            s1.canvas.uniforms.u_midtones = ⟨getColor e.r, getColor v, getColor e.b⟩)
        ∧ (s.mode = "highlights" →
            s1.canvas.uniforms.u_highlights = ⟨getColor e.r, getColor v, getColor e.b⟩))
      ∧ (∃ e s1, s.colors.get s.mode = some e ∧ step s (Event.bInput v) = some s1
        ∧ s1.colors.get s.mode = some ⟨e.r, e.g, v⟩
        ∧ (s.mode = "shadows" →
            s1.canvas.uniforms.u_shadows = ⟨getColor e.r, getColor e.g, getColor v⟩)
        ∧ (s.mode = "midtones" →
            s1.canvas.uniforms.u_midtones = ⟨getColor e.r, getColor e.g, getColor v⟩)
        ∧ (s.mode = "highlights" →
            s1.canvas.uniforms.u_highlights = ⟨getColor e.r, getColor e.g, getColor v⟩))
      ∧ (255 < v → getColor (clamp255 v) = 1 ∧ 1 < getColor v)
      ∧ (v ≤ -1 → getColor (clamp255 v) = 0 ∧ getColor v < 0)
      ∧ (0 ≤ v → v ≤ 255 → getColor (clamp255 v) = getColor v) := by
  refine ⟨inputHandler_uniforms s (fun e => ⟨v, e.g, e.b⟩) h,
    inputHandler_uniforms s (fun e => ⟨e.r, v, e.b⟩) h,
    inputHandler_uniforms s (fun e => ⟨e.r, e.g, v⟩) h, ?_, ?_, ?_⟩
  · intro hv
    have hc : clamp255 v = 255 := by
      unfold clamp255
      rw [if_neg (by linarith), if_pos hv]
    rw [hc, getColor_eq_div, getColor_eq_div]
    constructor
    · norm_num
    · rw [lt_div_iff₀ (by norm_num : (0 : ℚ) < 255)]
      linarith
  · intro hv
    have hc : clamp255 v = 0 := by
      unfold clamp255
      rw [if_pos (by linarith)]
    rw [hc, getColor_eq_div, getColor_eq_div]
    constructor
    · norm_num
    · exact div_neg_of_neg_of_pos (by linarith) (by norm_num)
  · intro h0 h1
    have hc : clamp255 v = v := by
      unfold clamp255
      rw [if_neg (by linarith), if_neg (by linarith)]
    rw [hc]

theorem slider_value_unclamped_witness :
    ∃ e s1,
      Table.get [("shadows", ⟨10, 20, 30⟩), ("midtones", ⟨0, 0, 0⟩),
          ("highlights", ⟨0, 0, 0⟩)] "shadows" = some e
        ∧ step ⟨[("shadows", ⟨10, 20, 30⟩), ("midtones", ⟨0, 0, 0⟩),
              ("highlights", ⟨0, 0, 0⟩)], "shadows",
            ⟨0, 0, (0, 0, 0, 0), (0, 0), [], zeroUniforms, []⟩,
            ⟨2, 1, [⟨1, 1, 1, 1⟩, ⟨0, 0, 0, 1⟩]⟩⟩ (Event.rInput 510) = some s1
        ∧ s1.colors.get "shadows" = some ⟨510, e.g, e.b⟩
        ∧ ("shadows" = "shadows" →
            s1.canvas.uniforms.u_shadows = ⟨getColor 510, getColor e.g, getColor e.b⟩)
        ∧ ("shadows" = "midtones" →
            s1.canvas.uniforms.u_midtones = ⟨getColor 510, getColor e.g, getColor e.b⟩)
        ∧ ("shadows" = "highlights" →
            s1.canvas.uniforms.u_highlights
              = ⟨getColor 510, getColor e.g, getColor e.b⟩) :=
  (slider_value_unclamped
    ⟨[("shadows", ⟨10, 20, 30⟩), ("midtones", ⟨0, 0, 0⟩), ("highlights", ⟨0, 0, 0⟩)],
      "shadows", ⟨0, 0, (0, 0, 0, 0), (0, 0), [], zeroUniforms, []⟩,
      ⟨2, 1, [⟨1, 1, 1, 1⟩, ⟨0, 0, 0, 1⟩]⟩⟩
    510 ⟨rfl, by simp [rangeKeys]⟩).1

/-! ## Channel independence and alpha -/

/-- C9 (channel independence): for every pixel and every two sets of offsets that differ
only in the red component of the midtones offset, the green and blue outputs of
`color_balance` are identical; and each output channel is the same for any two sets of
offsets that agree on that channel of the three offsets. -/
theorem color_balance_channel_independent (u1 u2 : Uniforms) (c : Vec3)
    (hs : u1.u_shadows = u2.u_shadows) (hh : u1.u_highlights = u2.u_highlights)
    (hg : u1.u_midtones.g = u2.u_midtones.g) (hb : u1.u_midtones.b = u2.u_midtones.b) :
    (color_balance u1 c).g = (color_balance u2 c).g
      ∧ (color_balance u1 c).b = (color_balance u2 c).b
      ∧ (∀ w1 w2 : Uniforms,
          (w1.u_shadows.r = w2.u_shadows.r → w1.u_midtones.r = w2.u_midtones.r →
            w1.u_highlights.r = w2.u_highlights.r →
            (color_balance w1 c).r = (color_balance w2 c).r)
          ∧ (w1.u_shadows.g = w2.u_shadows.g → w1.u_midtones.g = w2.u_midtones.g →
            w1.u_highlights.g = w2.u_highlights.g →
            (color_balance w1 c).g = (color_balance w2 c).g)
          ∧ (w1.u_shadows.b = w2.u_shadows.b → w1.u_midtones.b = w2.u_midtones.b →
            w1.u_highlights.b = w2.u_highlights.b →
            (color_balance w1 c).b = (color_balance w2 c).b)) := by
  refine ⟨?_, ?_, ?_⟩
  · rw [color_balance_g, color_balance_g, hs, hh, hg]
  · rw [color_balance_b, color_balance_b, hs, hh, hb]
  · intro w1 w2
    refine ⟨?_, ?_, ?_⟩
    · intro a1 a2 a3
      rw [color_balance_r, color_balance_r, a1, a2, a3]
    · intro a1 a2 a3
      rw [color_balance_g, color_balance_g, a1, a2, a3]
    · intro a1 a2 a3
      rw [color_balance_b, color_balance_b, a1, a2, a3]

theorem color_balance_channel_independent_witness :
    (color_balance ⟨⟨1 / 5, 0, 0⟩, ⟨0, 1 / 4, 1 / 3⟩, ⟨0, 0, 1 / 2⟩⟩ ⟨1 / 2, 1 / 4, 1⟩).g
        = (color_balance ⟨⟨1 / 5, 0, 0⟩, ⟨4 / 5, 1 / 4, 1 / 3⟩, ⟨0, 0, 1 / 2⟩⟩
            ⟨1 / 2, 1 / 4, 1⟩).g
      ∧ (color_balance ⟨⟨1 / 5, 0, 0⟩, ⟨0, 1 / 4, 1 / 3⟩, ⟨0, 0, 1 / 2⟩⟩ ⟨1 / 2, 1 / 4, 1⟩).b
        = (color_balance ⟨⟨1 / 5, 0, 0⟩, ⟨4 / 5, 1 / 4, 1 / 3⟩, ⟨0, 0, 1 / 2⟩⟩
            ⟨1 / 2, 1 / 4, 1⟩).b :=
  ⟨(color_balance_channel_independent
      ⟨⟨1 / 5, 0, 0⟩, ⟨0, 1 / 4, 1 / 3⟩, ⟨0, 0, 1 / 2⟩⟩
      ⟨⟨1 / 5, 0, 0⟩, ⟨4 / 5, 1 / 4, 1 / 3⟩, ⟨0, 0, 1 / 2⟩⟩
      ⟨1 / 2, 1 / 4, 1⟩ rfl rfl rfl rfl).1,
   (color_balance_channel_independent
      ⟨⟨1 / 5, 0, 0⟩, ⟨0, 1 / 4, 1 / 3⟩, ⟨0, 0, 1 / 2⟩⟩
      ⟨⟨1 / 5, 0, 0⟩, ⟨4 / 5, 1 / 4, 1 / 3⟩, ⟨0, 0, 1 / 2⟩⟩
      ⟨1 / 2, 1 / 4, 1⟩ rfl rfl rfl rfl).2.1⟩

/-- C10 (alpha passes through): for every source texel and every offsets, the alpha of the
fragment shader's output is the source alpha, and its rgb components are those of
`color_balance` applied to the texel's rgb. -/
theorem fragMain_alpha (u : Uniforms) (texel : Vec4) :
    (fragMain u texel).a = texel.a
      ∧ Vec4.rgb (fragMain u texel) = color_balance u (Vec4.rgb texel) := by
  constructor
  · rfl
  · rfl

/-! ## Pure white and pure black pixels -/

/-- C11 (white, midtones and shadows): the kernel's intensity of a pure white pixel is
exactly 1, so its shadows and midtones weights are 0, and with the highlights offset zero
the kernel leaves it unchanged for every shadows offset and every midtones offset, among
them the midtones red control at raw 200 and the shadows red control at raw 200. -/
theorem white_unchanged (s m : Vec3) :
    color_balance ⟨s, m, zeroOffset⟩ white = white
      ∧ shadows_bleed (intensity white) = 0
      ∧ midtones_bleed (intensity white) = 0
      ∧ color_balance (renderUniforms ⟨⟨0, 0, 0⟩, ⟨200, 0, 0⟩, ⟨0, 0, 0⟩⟩) white = white
      ∧ color_balance (renderUniforms ⟨⟨200, 0, 0⟩, ⟨0, 0, 0⟩, ⟨0, 0, 0⟩⟩) white = white := by
  have hs : shadows_bleed (intensity white) = 0 := by
    rw [intensity_white]
    norm_num [shadows_bleed]
  have hm : midtones_bleed (intensity white) = 0 := by
    rw [intensity_white]
    norm_num [midtones_bleed]
  have h : ∀ u : Uniforms, u.u_highlights = zeroOffset → color_balance u white = white := by
    intro u hu
    apply Vec3.ext_rgb
    · rw [color_balance_r, hs, hm, hu]; simp [zeroOffset]
    · rw [color_balance_g, hs, hm, hu]; simp [zeroOffset]
    · rw [color_balance_b, hs, hm, hu]; simp [zeroOffset]
  refine ⟨h _ rfl, hs, hm, h _ ?_, h _ ?_⟩
  · simp [renderUniforms, uniformOf, zeroOffset, getColor]
  · simp [renderUniforms, uniformOf, zeroOffset, getColor]

/-- C12 (black and midtones): the midtones and highlights weights of a pure black pixel
are 0, so with the shadows offset zero the kernel leaves it unchanged for every midtones
offset and every highlights offset. -/
theorem black_unchanged (m h : Vec3) :
    color_balance ⟨zeroOffset, m, h⟩ black = black
      ∧ midtones_bleed (intensity black) = 0
      ∧ highlights_bleed (intensity black) = 0 := by
  have hi : intensity black = 0 := intensity_black
  have hm : midtones_bleed 0 = 0 := by norm_num [midtones_bleed]
  have hh : highlights_bleed 0 = 0 := by norm_num [highlights_bleed]
  refine ⟨?_, by rw [hi, hm], by rw [hi, hh]⟩
  apply Vec3.ext_rgb
  · rw [color_balance_r, hi, hm, hh]; simp [zeroOffset, black]
  · rw [color_balance_g, hi, hm, hh]; simp [zeroOffset, black]
  · rw [color_balance_b, hi, hm, hh]; simp [zeroOffset, black]

/-- C13 (black and shadows): with the midtones and highlights offsets zero, the kernel
maps a pure black pixel to exactly the shadows offset `s`; with the raw shadows values
`(200, 0, 0)` its red output is `getColor 200` and its green and blue stay 0. -/
theorem black_to_shadows (s : Vec3) :
    color_balance ⟨s, zeroOffset, zeroOffset⟩ black = s
      ∧ color_balance (renderUniforms ⟨⟨200, 0, 0⟩, ⟨0, 0, 0⟩, ⟨0, 0, 0⟩⟩) black
          = ⟨getColor 200, 0, 0⟩ := by
  have hi : intensity black = 0 := intensity_black
  have hs : shadows_bleed 0 = 1 := by norm_num [shadows_bleed]
  have hm : midtones_bleed 0 = 0 := by norm_num [midtones_bleed]
  have hh : highlights_bleed 0 = 0 := by norm_num [highlights_bleed]
  constructor
  · apply Vec3.ext_rgb
    · rw [color_balance_r, hi, hs, hm, hh]; simp [zeroOffset, black]
    · rw [color_balance_g, hi, hs, hm, hh]; simp [zeroOffset, black]
    · rw [color_balance_b, hi, hs, hm, hh]; simp [zeroOffset, black]
  · apply Vec3.ext_rgb
    · rw [color_balance_r, hi, hs, hm, hh]
      simp [renderUniforms, uniformOf, black, getColor]
    · rw [color_balance_g, hi, hs, hm, hh]
      simp [renderUniforms, uniformOf, black, getColor]
    · rw [color_balance_b, hi, hs, hm, hh]
      simp [renderUniforms, uniformOf, black, getColor]

/-- C14, refuted as stated: `getColor 200` rounded to three decimal places is not
`0.569`. -/
theorem getColor_200_not_569 : round3 (getColor 200) ≠ 569 / 1000 := by
  have h : ⌊getColor 200 * 1000 + 1 / 2⌋ = 784 := by
    rw [Int.floor_eq_iff]
    norm_num [getColor]
  rw [round3, h]
  norm_num

/-- C14, amended: the remap of the raw control value 200 is `200 / 255 = 40 / 51`, which
is `0.784` when rounded to three decimal places. -/
theorem getColor_200_value :
    getColor 200 = 40 / 51 ∧ round3 (getColor 200) = 784 / 1000 := by
  have h : ⌊getColor 200 * 1000 + 1 / 2⌋ = 784 := by
    rw [Int.floor_eq_iff]
    norm_num [getColor]
  constructor
  · norm_num [getColor]
  · rw [round3, h]
    norm_num

/-! ## Bounds on the tone weights and on the output -/

/-- C15 (shadows plus highlights): for every intensity `I` in `[0, 1]`, the shadows
weight plus the highlights weight, `(1 - I)^3 + I^3`, is at most 2. -/
theorem shadows_add_highlights_le (i : ℚ) (h0 : 0 ≤ i) (h1 : i ≤ 1) :
    shadows_bleed i + highlights_bleed i ≤ 2
      ∧ shadows_bleed i + highlights_bleed i = (1 - i) ^ 3 + i ^ 3 := by
  have e : shadows_bleed i + highlights_bleed i = (1 - i) ^ 3 + i ^ 3 := by
    simp only [shadows_bleed, highlights_bleed]
    ring
  refine ⟨?_, e⟩
  rw [e]
  have ha : (1 - i) ^ 3 ≤ 1 := pow_le_one₀ (by linarith) (by linarith)
  have hb : i ^ 3 ≤ 1 := pow_le_one₀ h0 h1
  linarith

theorem shadows_add_highlights_le_witness :
    shadows_bleed (1 / 4) + highlights_bleed (1 / 4) ≤ 2
      ∧ shadows_bleed (1 / 4) + highlights_bleed (1 / 4)
          = (1 - (1 / 4 : ℚ)) ^ 3 + (1 / 4 : ℚ) ^ 3 :=
  shadows_add_highlights_le (1 / 4) (by norm_num) (by norm_num)

/-- C16 (non-negative weights): for every pixel whose r, g and b lie in `[0, 1]`, the
three weights the kernel computes from its intensity are non-negative. -/
theorem bleed_nonneg (c : Vec3)
    (hr : 0 ≤ c.r ∧ c.r ≤ 1) (hg : 0 ≤ c.g ∧ c.g ≤ 1) (hb : 0 ≤ c.b ∧ c.b ≤ 1) :
    0 ≤ shadows_bleed (intensity c)
      ∧ 0 ≤ midtones_bleed (intensity c)
      ∧ 0 ≤ highlights_bleed (intensity c) := by
  obtain ⟨hr0, hr1⟩ := hr
  obtain ⟨hg0, hg1⟩ := hg
  obtain ⟨hb0, hb1⟩ := hb
  obtain ⟨hi0, hi1⟩ := intensity_range c ⟨hr0, hr1⟩ ⟨hg0, hg1⟩ ⟨hb0, hb1⟩
  have hs : 0 ≤ 1 - intensity c := by linarith
  have hm : 0 ≤ 1 - |(-1 + intensity c * 2)| := by
    have : |(-1 + intensity c * 2)| ≤ 1 := by
      rw [abs_le]
      constructor <;> linarith
    linarith
  refine ⟨?_, ?_, ?_⟩
  · simp only [shadows_bleed]
    exact mul_nonneg (mul_nonneg hs hs) hs
  · simp only [midtones_bleed]
    exact mul_nonneg (mul_nonneg hm hm) hm
  · simp only [highlights_bleed]
    exact mul_nonneg (mul_nonneg hi0 hi0) hi0

theorem bleed_nonneg_witness :
    0 ≤ shadows_bleed (intensity ⟨1, 1 / 2, 0⟩)
      ∧ 0 ≤ midtones_bleed (intensity ⟨1, 1 / 2, 0⟩)
      ∧ 0 ≤ highlights_bleed (intensity ⟨1, 1 / 2, 0⟩) :=
  bleed_nonneg ⟨1, 1 / 2, 0⟩ (by norm_num) (by norm_num) (by norm_num)

/-- C17 (no clamp on the output): there are a pixel with components in `[0, 1]` and raw
control values in `[0, 255]`, namely a white pixel with the highlights red control at
255, for which the red output of `color_balance` is strictly greater than 1. -/
theorem color_balance_exceeds_one :
    ∃ (raw : Colors) (c : Vec3),
      (0 ≤ c.r ∧ c.r ≤ 1) ∧ (0 ≤ c.g ∧ c.g ≤ 1) ∧ (0 ≤ c.b ∧ c.b ≤ 1)
        ∧ (∀ e ∈ [raw.shadows, raw.midtones, raw.highlights],
            (0 ≤ e.r ∧ e.r ≤ 255) ∧ (0 ≤ e.g ∧ e.g ≤ 255) ∧ (0 ≤ e.b ∧ e.b ≤ 255))
        ∧ raw = ⟨⟨0, 0, 0⟩, ⟨0, 0, 0⟩, ⟨255, 0, 0⟩⟩ ∧ c = white
        ∧ 1 < (color_balance (renderUniforms raw) c).r := by
  refine ⟨⟨⟨0, 0, 0⟩, ⟨0, 0, 0⟩, ⟨255, 0, 0⟩⟩, white, ?_, ?_, ?_, ?_, rfl, rfl, ?_⟩
  · norm_num [white]
  · norm_num [white]
  · norm_num [white]
  · intro e he
    simp only [List.mem_cons, List.mem_singleton, List.not_mem_nil, or_false] at he
    rcases he with rfl | rfl | rfl <;> norm_num
  · rw [color_balance_r, intensity_white]
    norm_num [renderUniforms, uniformOf, getColor, white, shadows_bleed,
      midtones_bleed, highlights_bleed]

/-! ## The offset table and `render` -/

/-- C18 (offset-table invariant): the table starts with all nine components zero, and
after any sequence of range selections, slider inputs and download clicks no handler has
thrown, the table has exactly the three entries shadows, midtones and highlights, and
`mode` is one of those three keys. -/
theorem offset_table_invariant (canvas : Canvas) (image : Image) (events : List Event) :
    (App.start canvas image).colors
        = [("shadows", ⟨0, 0, 0⟩), ("midtones", ⟨0, 0, 0⟩), ("highlights", ⟨0, 0, 0⟩)]
      ∧ ∃ s, run (App.start canvas image) events = some s
          ∧ s.colors.keys = ["shadows", "midtones", "highlights"]
          ∧ (s.mode = "shadows" ∨ s.mode = "midtones" ∨ s.mode = "highlights") := by
  refine ⟨rfl, ?_⟩
  have h0 : (App.start canvas image).WellFormed := by
    constructor
    · rfl
    · simp [App.start, rangeKeys]
  obtain ⟨s, hs, hk, hm⟩ := run_wellFormed events _ h0
  refine ⟨s, hs, hk, ?_⟩
  simpa [rangeKeys] using hm

/-- C19 (target dimensions): a `render(canvas, image)` call on a table with its three
entries returns, and afterwards the canvas has the image's width and height, the viewport
and the uniform `u_resolution` span exactly those dimensions, and the rectangle written
by `setRectangle` runs from `(0, 0)` to `(width, height)`. -/
theorem render_dimensions (colors : Table) (canvas : Canvas) (image : Image)
    (h : colors.keys = rangeKeys) :
    ∃ out, render colors canvas image = some out
      ∧ out.width = image.width ∧ out.height = image.height
      ∧ out.viewport = (0, 0, image.width, image.height)
      ∧ out.u_resolution = ((image.width : ℚ), (image.height : ℚ))
      ∧ out.positions
          = [0, 0, (image.width : ℚ), 0, 0, (image.height : ℚ),
              0, (image.height : ℚ), (image.width : ℚ), 0,
              (image.width : ℚ), (image.height : ℚ)] := by
  obtain ⟨c, hc⟩ := readColors_of_keys colors h
  refine ⟨_, render_of_readColors colors canvas image c hc, rfl, rfl, rfl, rfl, ?_⟩
  simp [setRectangle]

theorem render_dimensions_witness :
    ∃ out,
      render [("shadows", ⟨0, 0, 0⟩), ("midtones", ⟨200, 0, 0⟩), ("highlights", ⟨0, 0, 0⟩)]
          ⟨7, 5, (0, 0, 7, 5), (7, 5), [], zeroUniforms, []⟩
          ⟨2, 1, [⟨1, 1, 1, 1⟩, ⟨0, 0, 0, 1⟩]⟩ = some out
      ∧ out.width = 2 ∧ out.height = 1
      ∧ out.viewport = (0, 0, 2, 1)
      ∧ out.u_resolution = (((2 : ℕ) : ℚ), ((1 : ℕ) : ℚ))
      ∧ out.positions
          = [0, 0, ((2 : ℕ) : ℚ), 0, 0, ((1 : ℕ) : ℚ),
              0, ((1 : ℕ) : ℚ), ((2 : ℕ) : ℚ), 0,
              ((2 : ℕ) : ℚ), ((1 : ℕ) : ℚ)] :=
  render_dimensions
    [("shadows", ⟨0, 0, 0⟩), ("midtones", ⟨200, 0, 0⟩), ("highlights", ⟨0, 0, 0⟩)]
    ⟨7, 5, (0, 0, 7, 5), (7, 5), [], zeroUniforms, []⟩
    ⟨2, 1, [⟨1, 1, 1, 1⟩, ⟨0, 0, 0, 1⟩]⟩ rfl

/-- C20 (render determinism): two sessions with the same offset table, whatever their
`mode` and whatever an earlier render left on their canvas, get the same result from
`render` on the same image; the frame is the fragment shader applied to the image's
texels under the table's offsets, and rendering again onto the result changes nothing. -/
theorem render_deterministic (s1 s2 : App) (image : Image) (h : s1.colors = s2.colors) :
    render s1.colors s1.canvas image = render s2.colors s2.canvas image
      ∧ (∀ c, readColors s1.colors = some c →
          (render s1.colors s1.canvas image).map Canvas.frame
            = some (image.pixels.map (fragMain (renderUniforms c))))
      ∧ (∀ out, render s1.colors s1.canvas image = some out →
          render s1.colors out image = some out) := by
  refine ⟨?_, ?_, ?_⟩
  · rw [h]
    cases hc : readColors s2.colors with
    | none => simp only [render, hc]
    | some c =>
      rw [render_of_readColors _ _ _ c hc, render_of_readColors _ _ _ c hc]
  · intro c hc
    rw [render_of_readColors _ _ _ c hc]
    rfl
  · intro out hout
    cases hc : readColors s1.colors with
    | none => simp [render, hc] at hout
    | some c =>
      rw [render_of_readColors _ _ _ c hc] at hout
      rw [render_of_readColors _ _ _ c hc]
      exact hout

theorem render_deterministic_witness :
    render [("shadows", ⟨0, 0, 0⟩), ("midtones", ⟨200, 0, 0⟩), ("highlights", ⟨0, 0, 0⟩)]
        ⟨7, 5, (0, 0, 7, 5), (7, 5), [], zeroUniforms, [⟨1, 0, 0, 1⟩]⟩
        ⟨2, 1, [⟨1, 1, 1, 1⟩, ⟨0, 0, 0, 1⟩]⟩
      = render [("shadows", ⟨0, 0, 0⟩), ("midtones", ⟨200, 0, 0⟩), ("highlights", ⟨0, 0, 0⟩)]
        ⟨0, 0, (0, 0, 0, 0), (0, 0), [], zeroUniforms, []⟩
        ⟨2, 1, [⟨1, 1, 1, 1⟩, ⟨0, 0, 0, 1⟩]⟩ :=
  (render_deterministic
    ⟨[("shadows", ⟨0, 0, 0⟩), ("midtones", ⟨200, 0, 0⟩), ("highlights", ⟨0, 0, 0⟩)],
      "shadows", ⟨7, 5, (0, 0, 7, 5), (7, 5), [], zeroUniforms, [⟨1, 0, 0, 1⟩]⟩,
      ⟨2, 1, [⟨1, 1, 1, 1⟩, ⟨0, 0, 0, 1⟩]⟩⟩
    ⟨[("shadows", ⟨0, 0, 0⟩), ("midtones", ⟨200, 0, 0⟩), ("highlights", ⟨0, 0, 0⟩)],
      "highlights", ⟨0, 0, (0, 0, 0, 0), (0, 0), [], zeroUniforms, []⟩,
      ⟨9, 9, []⟩⟩
    ⟨2, 1, [⟨1, 1, 1, 1⟩, ⟨0, 0, 0, 1⟩]⟩ rfl).1

/-! ## The vertex stage -/

/-- C21 (vertex stage): for an image of positive width `w` and height `h`, the vertex
shader sends a pixel position `(x, y)` to `(x / w * 2 - 1, -(y / h * 2 - 1))`, inside
`[-1, 1]` for positions on the target; the six vertices of `setRectangle(0, 0, w, h)`
land on the four corners of the clip-space square, and the two triangles drawn from them
cover every point of that square.  The resolution and the rectangle are those `render`
binds. -/
theorem vertex_stage_corners (image : Image) (hw : 0 < image.width)
    (hh : 0 < image.height) :
    (∀ t p : Vec2,
        (vertMain ⟨image.width, image.height⟩ t p).gl_Position
          = ⟨p.x / image.width * 2 - 1, -(p.y / image.height * 2 - 1), 0, 1⟩)
      ∧ (∀ t p : Vec2, 0 ≤ p.x → p.x ≤ image.width → 0 ≤ p.y → p.y ≤ image.height →
          (-1 ≤ (vertMain ⟨image.width, image.height⟩ t p).gl_Position.x
            ∧ (vertMain ⟨image.width, image.height⟩ t p).gl_Position.x ≤ 1)
          ∧ (-1 ≤ (vertMain ⟨image.width, image.height⟩ t p).gl_Position.y
            ∧ (vertMain ⟨image.width, image.height⟩ t p).gl_Position.y ≤ 1))
      ∧ clipVertices ⟨image.width, image.height⟩
            (setRectangle 0 0 image.width image.height)
          = [⟨-1, 1⟩, ⟨1, 1⟩, ⟨-1, -1⟩, ⟨-1, -1⟩, ⟨1, 1⟩, ⟨1, -1⟩]
      ∧ (∀ p : Vec2, -1 ≤ p.x → p.x ≤ 1 → -1 ≤ p.y → p.y ≤ 1 →
          ∃ t ∈ triangles (clipVertices ⟨image.width, image.height⟩
              (setRectangle 0 0 image.width image.height)), inTriangle t p)
      ∧ (∀ colors canvas out, render colors canvas image = some out →
          out.u_resolution = ((image.width : ℚ), (image.height : ℚ))
            ∧ out.positions = setRectangle 0 0 image.width image.height) := by
  have hw0 : (0 : ℚ) < image.width := by exact_mod_cast hw
  have hh0 : (0 : ℚ) < image.height := by exact_mod_cast hh
  have hw1 : (image.width : ℚ) ≠ 0 := ne_of_gt hw0
  have hh1 : (image.height : ℚ) ≠ 0 := ne_of_gt hh0
  have hv : clipVertices ⟨image.width, image.height⟩
      (setRectangle 0 0 image.width image.height)
        = [⟨-1, 1⟩, ⟨1, 1⟩, ⟨-1, -1⟩, ⟨-1, -1⟩, ⟨1, 1⟩, ⟨1, -1⟩] := by
    simp [clipVertices, setRectangle, attributes, rect, vertMain, hw1, hh1]
    norm_num
  refine ⟨?_, ?_, hv, ?_, ?_⟩
  · intro t p
    simp only [vertMain]
    congr 1 <;> ring
  · intro t p hx0 hx1 hy0 hy1
    have ex : 0 ≤ p.x / image.width := div_nonneg hx0 hw0.le
    have ex1 : p.x / image.width ≤ 1 := (div_le_one hw0).mpr hx1
    have ey : 0 ≤ p.y / image.height := div_nonneg hy0 hh0.le
    have ey1 : p.y / image.height ≤ 1 := (div_le_one hh0).mpr hy1
    simp only [vertMain]
    refine ⟨⟨?_, ?_⟩, ?_, ?_⟩ <;> linarith
  · intro p hx0 hx1 hy0 hy1
    rw [hv]
    rcases le_total p.x p.y with hxy | hxy
    · refine ⟨(⟨-1, 1⟩, ⟨1, 1⟩, ⟨-1, -1⟩), by simp [triangles], Or.inr ?_⟩
      simp only [edge]
      refine ⟨?_, ?_, ?_⟩ <;> linarith
    · refine ⟨(⟨-1, -1⟩, ⟨1, 1⟩, ⟨1, -1⟩), by simp [triangles], Or.inr ?_⟩
      simp only [edge]
      refine ⟨?_, ?_, ?_⟩ <;> linarith
  · intro colors canvas out hout
    cases hc : readColors colors with
    | none => simp [render, hc] at hout
    | some c =>
      rw [render_of_readColors _ _ _ c hc] at hout
      cases hout
      exact ⟨rfl, rfl⟩

theorem vertex_stage_corners_witness :
    0 < (2 : ℕ) ∧ 0 < (1 : ℕ)
      ∧ clipVertices ⟨((2 : ℕ) : ℚ), ((1 : ℕ) : ℚ)⟩
            (setRectangle 0 0 ((2 : ℕ) : ℚ) ((1 : ℕ) : ℚ))
          = [⟨-1, 1⟩, ⟨1, 1⟩, ⟨-1, -1⟩, ⟨-1, -1⟩, ⟨1, 1⟩, ⟨1, -1⟩] :=
  ⟨by decide, by decide,
    (vertex_stage_corners ⟨2, 1, [⟨1, 1, 1, 1⟩, ⟨0, 0, 0, 1⟩]⟩
      (by decide) (by decide)).2.2.1⟩

/-! ## The handlers and the offsets -/

/-- C22 (handler frame): in a session whose table has its three entries and whose `mode`
is one of them, a slider input on channel r, g or b with value `v` returns, writes `v`
to that one channel of the entry of the active range, and leaves the other two channels
of that entry, the entries of every other key, the keys and `mode` unchanged; a range
selection changes `mode` only. -/
theorem slider_input_frame (s : App) (v : ℚ) (h : s.WellFormed) :
    (∃ e s1, s.colors.get s.mode = some e ∧ step s (Event.rInput v) = some s1
        ∧ s1.colors.get s.mode = some ⟨v, e.g, e.b⟩
        ∧ (∀ key, key ≠ s.mode → s1.colors.get key = s.colors.get key)
        ∧ s1.mode = s.mode ∧ s1.colors.keys = s.colors.keys)
      ∧ (∃ e s1, s.colors.get s.mode = some e ∧ step s (Event.gInput v) = some s1
        ∧ s1.colors.get s.mode = some ⟨e.r, v, e.b⟩
        ∧ (∀ key, key ≠ s.mode → s1.colors.get key = s.colors.get key)
        ∧ s1.mode = s.mode ∧ s1.colors.keys = s.colors.keys)
      ∧ (∃ e s1, s.colors.get s.mode = some e ∧ step s (Event.bInput v) = some s1
        ∧ s1.colors.get s.mode = some ⟨e.r, e.g, v⟩
        ∧ (∀ key, key ≠ s.mode → s1.colors.get key = s.colors.get key)
        ∧ s1.mode = s.mode ∧ s1.colors.keys = s.colors.keys)
      ∧ step s Event.shadowsChange = some ⟨s.colors, "shadows", s.canvas, s.image⟩
      ∧ step s Event.midtonesChange = some ⟨s.colors, "midtones", s.canvas, s.image⟩
      ∧ step s Event.highlightsChange
          = some ⟨s.colors, "highlights", s.canvas, s.image⟩ := by
  exact ⟨inputHandler_effect s (fun e => ⟨v, e.g, e.b⟩) h,
    inputHandler_effect s (fun e => ⟨e.r, v, e.b⟩) h,
    inputHandler_effect s (fun e => ⟨e.r, e.g, v⟩) h, rfl, rfl, rfl⟩

theorem slider_input_frame_witness :
    ∃ e s1,
      Table.get [("shadows", ⟨10, 20, 30⟩), ("midtones", ⟨0, 0, 0⟩),
          ("highlights", ⟨0, 0, 0⟩)] "shadows" = some e
        ∧ step ⟨[("shadows", ⟨10, 20, 30⟩), ("midtones", ⟨0, 0, 0⟩),
              ("highlights", ⟨0, 0, 0⟩)], "shadows",
            ⟨0, 0, (0, 0, 0, 0), (0, 0), [], zeroUniforms, []⟩,
            ⟨2, 1, [⟨1, 1, 1, 1⟩, ⟨0, 0, 0, 1⟩]⟩⟩ (Event.rInput 200) = some s1
        ∧ s1.colors.get "shadows" = some ⟨200, e.g, e.b⟩
        ∧ (∀ key, key ≠ "shadows" → s1.colors.get key
            = Table.get [("shadows", ⟨10, 20, 30⟩), ("midtones", ⟨0, 0, 0⟩),
                ("highlights", ⟨0, 0, 0⟩)] key)
        ∧ s1.mode = "shadows"
        ∧ s1.colors.keys = Table.keys [("shadows", ⟨10, 20, 30⟩), ("midtones", ⟨0, 0, 0⟩),
            ("highlights", ⟨0, 0, 0⟩)] :=
  (slider_input_frame
    ⟨[("shadows", ⟨10, 20, 30⟩), ("midtones", ⟨0, 0, 0⟩), ("highlights", ⟨0, 0, 0⟩)],
      "shadows", ⟨0, 0, (0, 0, 0, 0), (0, 0), [], zeroUniforms, []⟩,
      ⟨2, 1, [⟨1, 1, 1, 1⟩, ⟨0, 0, 0, 1⟩]⟩⟩
    200 ⟨rfl, by simp [rangeKeys]⟩).1

/-! ## The two branches of `getColor` -/

/-- C23, refuted as stated: in binary64 `getColor(1)` is not the number `1 / 255`, neither
the rational nor the binary64 quotient, and at `-100` the two branch expressions of
`getColor` give different numbers. -/
theorem getColor64_not_div :
    getColor64 1 = 1103823438081 / 281474976710656
      ∧ fl64 (1 / 255) = 282578800148737 / 72057594037927936
      ∧ getColor64 1 ≠ fl64 (1 / 255) ∧ getColor64 1 ≠ 1 / 255
      ∧ getColorThen64 (-100) = -(3532235001859213 / 9007199254740992)
      ∧ getColorElse64 (-100) = -(883058750464803 / 2251799813685248)
      ∧ getColorThen64 (-100) ≠ getColorElse64 (-100) := by
  have a1 : fl64 ((1 : ℚ) - 255) = -254 := by
    rw [show ((1 : ℚ) - 255) = -254 by norm_num,
      fl64_neg_eq 254 7 8936830510563328 (by norm_num) (by norm_num) (by norm_num)
        (by norm_num [abs_lt])]
    norm_num
  have b1 : fl64 ((-254 : ℚ) / 255) = -(280371153272575 / 281474976710656) := by
    rw [show ((-254 : ℚ) / 255) = -(254 / 255) by norm_num,
      fl64_neg_eq (254 / 255) (-1) 8971876904722400 (by norm_num) (by norm_num)
        (by norm_num) (by norm_num [abs_lt])]
    norm_num
  have c1 : fl64 ((1 : ℚ) + -(280371153272575 / 281474976710656))
      = 1103823438081 / 281474976710656 := by
    rw [show ((1 : ℚ) + -(280371153272575 / 281474976710656))
        = 1103823438081 / 281474976710656 by norm_num,
      fl64_eq _ (-8) 4521260802379776 (by norm_num) (by norm_num) (by norm_num)
        (by norm_num [abs_lt])]
    norm_num
  have g1 : getColor64 1 = 1103823438081 / 281474976710656 := by
    unfold getColor64
    rw [fl64_one, if_neg (by norm_num)]
    unfold getColorElse64
    rw [a1, b1, c1]
  have d1 : fl64 (1 / 255) = 282578800148737 / 72057594037927936 := by
    rw [fl64_eq _ (-8) 4521260802379792 (by norm_num) (by norm_num) (by norm_num)
      (by norm_num [abs_lt])]
    norm_num
  have a2 : fl64 ((255 : ℚ) + -100) = 155 := by
    rw [show ((255 : ℚ) + -100) = 155 by norm_num,
      fl64_eq 155 7 5453577673768960 (by norm_num) (by norm_num) (by norm_num)
        (by norm_num [abs_lt])]
    norm_num
  have b2 : fl64 ((155 : ℚ) / 255) = 5474964252881779 / 9007199254740992 := by
    rw [fl64_eq _ (-1) 5474964252881779 (by norm_num) (by norm_num) (by norm_num)
      (by norm_num [abs_lt])]
    norm_num
  have c2 : fl64 ((5474964252881779 : ℚ) / 9007199254740992 - 1)
      = -(3532235001859213 / 9007199254740992) := by
    rw [show ((5474964252881779 : ℚ) / 9007199254740992 - 1)
        = -(3532235001859213 / 9007199254740992) by norm_num,
      fl64_neg_eq _ (-2) 7064470003718426 (by norm_num) (by norm_num) (by norm_num)
        (by norm_num [abs_lt])]
    norm_num
  have t2 : getColorThen64 (-100) = -(3532235001859213 / 9007199254740992) := by
    unfold getColorThen64
    rw [a2, b2, c2]
  have a3 : fl64 ((-100 : ℚ) - 255) = -355 := by
    rw [show ((-100 : ℚ) - 255) = -355 by norm_num,
      fl64_neg_eq 355 8 6245226045767680 (by norm_num) (by norm_num) (by norm_num)
        (by norm_num [abs_lt])]
    norm_num
  have b3 : fl64 ((-355 : ℚ) / 255) = -(3134858564150051 / 2251799813685248) := by
    rw [show ((-355 : ℚ) / 255) = -(355 / 255) by norm_num,
      fl64_neg_eq (355 / 255) 0 6269717128300102 (by norm_num) (by norm_num)
        (by norm_num) (by norm_num [abs_lt])]
    norm_num
  have c3 : fl64 ((1 : ℚ) + -(3134858564150051 / 2251799813685248))
      = -(883058750464803 / 2251799813685248) := by
    rw [show ((1 : ℚ) + -(3134858564150051 / 2251799813685248))
        = -(883058750464803 / 2251799813685248) by norm_num,
      fl64_neg_eq _ (-2) 7064470003718424 (by norm_num) (by norm_num) (by norm_num)
        (by norm_num [abs_lt])]
    norm_num
  have e3 : getColorElse64 (-100) = -(883058750464803 / 2251799813685248) := by
    unfold getColorElse64
    rw [a3, b3, c3]
  refine ⟨g1, d1, ?_, ?_, t2, e3, ?_⟩
  · rw [g1, d1]
    norm_num
  · rw [g1]
    norm_num
  · rw [t2, e3]
    norm_num

/-- C23, amended: in binary64 the two branches of `getColor` agree with `v / 255`, and so
with each other, up to rounding only: for every value `v` with `-255 ≤ v ≤ 255` each
branch expression, and `getColor(v)` itself, is within `2^-50` of `v / 255`; for `v` in
`[0, 255]` the result lies in `[0, 1]` and is never negative. -/
theorem getColor64_near_div (v : ℚ) (hlo : -255 ≤ v) (hhi : v ≤ 255) :
    |getColorThen64 (fl64 v) - v / 255| ≤ 1 / 2 ^ 50
      ∧ |getColorElse64 (fl64 v) - v / 255| ≤ 1 / 2 ^ 50
      ∧ |getColor64 v - v / 255| ≤ 1 / 2 ^ 50
      ∧ (0 ≤ v → 0 ≤ getColor64 v ∧ getColor64 v ≤ 1) := by
  have hf := fl64_sub_le_256 v (by rw [abs_lt]; constructor <;> linarith)
  have f0 := neg_255_le_fl64 v hlo
  have f1 := fl64_le_255 v hhi
  have ht := getColorThen64_near (fl64 v) v hf f0 f1
  have he := getColorElse64_near (fl64 v) v hf f0 f1
  have e50 : (1 : ℚ) / 2 ^ 50 = 1 / 1125899906842624 := by norm_num
  rw [e50]
  refine ⟨ht, he, ?_, fun h0 => getColor64_range v h0 hhi⟩
  unfold getColor64
  split_ifs
  · exact ht
  · exact he

theorem getColor64_near_div_witness :
    |getColorThen64 (fl64 200) - 200 / 255| ≤ 1 / 2 ^ 50
      ∧ |getColorElse64 (fl64 200) - 200 / 255| ≤ 1 / 2 ^ 50
      ∧ |getColor64 200 - 200 / 255| ≤ 1 / 2 ^ 50
      ∧ ((0 : ℚ) ≤ 200 → 0 ≤ getColor64 200 ∧ getColor64 200 ≤ 1) :=
  getColor64_near_div 200 (by norm_num) (by norm_num)

end ColorBalance
